import Mathlib

/-!
# Verification of the gazes-v2 video-source resolution engine

This file gives a shallow embedding, in Lean 4, of the video-source
resolution engine of the gazes-v2 repository (the `/api/resolve` event
handler and its helpers: `decodeBase64Url`, `validateUrl`,
`decodeJavaScriptPacker`, `analyzeVidMolyJavaScript`, `extractVideoUrls`,
`performResolution`, and the surrounding cache gate), together with
theorems settling the frozen specification claims about that engine.

Strings of the JavaScript source are modelled as `List Char`; byte
sequences as `List Nat` (each entry `< 256`).  Wall-clock time never
advances in the model (`Date.now()` is constant), so the
`PROCESSING_TIMEOUT` branches of the source, which only fire after 3
seconds of real time, are modelled as never taken.  Network access is
modelled by an explicit `FetchOutcome` value giving the outcome of the
single `fetch(url)` call that `performResolution` performs.
-/

set_option maxHeartbeats 1000000
set_option maxRecDepth 100000

namespace GazesResolve

/-- JavaScript strings, modelled as lists of characters. -/
abbrev Str := List Char

/-- ASCII whitespace recognised by JavaScript's `String.prototype.trim`
and by the regex class `\s` (the model restricts attention to the ASCII
whitespace code points: tab, LF, VT, FF, CR, space). -/
def isJsWhitespace (c : Char) : Bool :=
  c = ' ' || c = '\t' || c = '\n' || c = '\r' || c = '\x0b' || c = '\x0c'

/-- `String.prototype.trim()`: drop leading and trailing whitespace. -/
def jsTrim (s : Str) : Str :=
  (s.dropWhile isJsWhitespace).reverse.dropWhile isJsWhitespace |>.reverse

/-- A quote character (`"` or `'`). -/
def isQuote (c : Char) : Bool := c = '"' || c = '\''

/-- `stripQuotes` (part_001 lines 104-106):
`url.replace(/^["']|["']$/g, '')` removes one leading and one trailing
quote character. -/
def stripQuotes (s : Str) : Str :=
  let s1 := match s with
    | c :: rest => if isQuote c then rest else s
    | [] => []
  match s1.getLast? with
  | some c => if isQuote c then s1.dropLast else s1
  | none => s1

/-- `leadMatch needle hay` holds when `needle` occurs at the very start
of `hay`. -/
def leadMatch : Str → Str → Bool
  | [], _ => true
  | _ :: _, [] => false
  | n :: ns, h :: hs => n = h && leadMatch ns hs

/-- Case-sensitive substring containment (JavaScript `String.prototype.includes`). -/
def containsSub (hay needle : Str) : Bool :=
  match hay with
  | [] => leadMatch needle []
  | _ :: t => leadMatch needle hay || containsSub t needle

/-- Lowercase a string (ASCII case folding; the source only ever
case-folds ASCII). -/
def lowerStr (s : Str) : Str := s.map Char.toLower

/-- Case-insensitive substring containment, as performed by a regex with
the `i` flag. -/
def containsSubCI (hay needle : Str) : Bool :=
  containsSub (lowerStr hay) (lowerStr needle)

/-- A word character for the regex classes `\w` and `\b`
(`[A-Za-z0-9_]`). -/
def isWordChar (c : Char) : Bool :=
  (('a' ≤ c && c ≤ 'z') || ('A' ≤ c && c ≤ 'Z') || ('0' ≤ c && c ≤ '9') || c = '_')

/-- ASCII decimal digit. -/
def isDigitChar (c : Char) : Bool := '0' ≤ c && c ≤ '9'

/-- ASCII letter. -/
def isAlphaChar (c : Char) : Bool :=
  ('a' ≤ c && c ≤ 'z') || ('A' ≤ c && c ≤ 'Z')

/-- Character allowed in a hostname by `validateUrl`'s final check
(`/^[a-zA-Z0-9.-]+$/`). -/
def isHostRegexChar (c : Char) : Bool :=
  isAlphaChar c || isDigitChar c || c = '.' || c = '-'

/-- Parse a run of decimal digits as a natural number (`parseInt` on an
all-digit string). -/
def digitsToNat (s : Str) : Nat :=
  s.foldl (fun acc c => acc * 10 + (c.toNat - '0'.toNat)) 0

/-! ## Bytes, UTF-8 and base64

`Buffer.from(..., 'base64')` / `.toString('utf8')` are modelled over
`List Nat` byte sequences.  The UTF-8 decoder emits U+FFFD for invalid
sequences, as Node's `toString('utf8')` does. -/

/-- UTF-8 encoding of one Unicode scalar value. -/
def utf8EncodeChar (n : Nat) : List Nat :=
  if n < 0x80 then [n]
  else if n < 0x800 then [0xc0 + n / 64, 0x80 + n % 64]
  else if n < 0x10000 then
    [0xe0 + n / 4096, 0x80 + (n / 64) % 64, 0x80 + n % 64]
  else
    [0xf0 + n / 262144, 0x80 + (n / 4096) % 64, 0x80 + (n / 64) % 64, 0x80 + n % 64]

/-- UTF-8 encoding of a string. -/
def utf8Encode (s : Str) : List Nat :=
  s.foldr (fun c acc => utf8EncodeChar c.toNat ++ acc) []

/-- A UTF-8 continuation byte (`10xxxxxx`). -/
def isContByte (b : Nat) : Bool := 0x80 ≤ b && b < 0xc0

/-- The U+FFFD replacement character. -/
def replChar : Char := Char.ofNat 0xfffd

/-- One step of UTF-8 decoding: given the lead byte and the remaining
bytes, the decoded character (U+FFFD on malformed input, as in Node's
`toString('utf8')`) and how many continuation bytes were consumed. -/
def utf8Step (b1 : Nat) (rest : List Nat) : Char × Nat :=
  if b1 < 0x80 then (Char.ofNat b1, 0)
  else if 0xc2 ≤ b1 ∧ b1 < 0xe0 then
    match rest with
    | b2 :: _ =>
      if isContByte b2 then (Char.ofNat ((b1 - 0xc0) * 64 + (b2 - 0x80)), 1)
      else (replChar, 0)
    | [] => (replChar, 0)
  else if 0xe0 ≤ b1 ∧ b1 < 0xf0 then
    match rest with
    | b2 :: b3 :: _ =>
      let v := (b1 - 0xe0) * 4096 + (b2 - 0x80) * 64 + (b3 - 0x80)
      if isContByte b2 ∧ isContByte b3 ∧ 0x800 ≤ v ∧ ¬(0xd800 ≤ v ∧ v < 0xe000) then
        (Char.ofNat v, 2)
      else (replChar, 0)
    | _ => (replChar, 0)
  else if 0xf0 ≤ b1 ∧ b1 < 0xf8 then
    match rest with
    | b2 :: b3 :: b4 :: _ =>
      let v := (b1 - 0xf0) * 262144 + (b2 - 0x80) * 4096 +
        (b3 - 0x80) * 64 + (b4 - 0x80)
      if isContByte b2 ∧ isContByte b3 ∧ isContByte b4 ∧ 0x10000 ≤ v ∧ v < 0x110000 then
        (Char.ofNat v, 3)
      else (replChar, 0)
    | _ => (replChar, 0)
  else (replChar, 0)

/-- Fuel-driven UTF-8 decoding loop. -/
def utf8DecodeAux : Nat → List Nat → Str
  | 0, _ => []
  | _ + 1, [] => []
  | fuel + 1, b1 :: rest =>
    let p := utf8Step b1 rest
    p.1 :: utf8DecodeAux fuel (rest.drop p.2)

/-- UTF-8 decoding with U+FFFD replacement on malformed input
(the behaviour of Node's `buffer.toString('utf8')`). -/
def utf8Decode (bs : List Nat) : Str := utf8DecodeAux bs.length bs

/-- Value of a character in the standard base64 alphabet. -/
def b64Value (c : Char) : Option Nat :=
  if 'A' ≤ c ∧ c ≤ 'Z' then some (c.toNat - 65)
  else if 'a' ≤ c ∧ c ≤ 'z' then some (c.toNat - 97 + 26)
  else if '0' ≤ c ∧ c ≤ '9' then some (c.toNat - 48 + 52)
  else if c = '+' then some 62
  else if c = '/' then some 63
  else none

/-- The `n`-th character of the base64url alphabet (`-`/`_` variants). -/
def b64UrlChar (n : Nat) : Char :=
  if n < 26 then Char.ofNat (65 + n)
  else if n < 52 then Char.ofNat (97 + (n - 26))
  else if n < 62 then Char.ofNat (48 + (n - 52))
  else if n = 62 then '-'
  else '_'

/-- Decoding of a list of 6-bit values to bytes: complete 4-value
groups give 3 bytes, a 3- or 2-value tail gives 2 or 1 bytes, a
single leftover value is dropped. -/
def lenientB64Vals : List Nat → List Nat
  | v1 :: v2 :: v3 :: v4 :: rest =>
    (v1 * 4 + v2 / 16) :: ((v2 % 16) * 16 + v3 / 4) :: ((v3 % 4) * 64 + v4) ::
    lenientB64Vals rest
  | [v1, v2, v3] => [v1 * 4 + v2 / 16, (v2 % 16) * 16 + v3 / 4]
  | [v1, v2] => [v1 * 4 + v2 / 16]
  | _ => []

/-- `Buffer.from(s, 'base64')`: Node's base64 decoder is lenient and
never throws for a string — it stops at the first `=` and ignores
characters outside the alphabet, decoding whatever groups remain
(possibly no bytes at all). -/
def lenientB64Decode (s : Str) : List Nat :=
  lenientB64Vals ((s.takeWhile (fun c => c ≠ '=')).filterMap b64Value)

/-- The character replacement of `decodeBase64Url` (line 11):
`-`→`+`, `_`→`/`. -/
def b64UrlRepl (c : Char) : Char :=
  if c = '-' then '+' else if c = '_' then '/' else c

/-- The preprocessing of `decodeBase64Url` (lines 11-13): convert
base64url to base64 and restore `=` padding to a multiple of 4
(`'===' .slice((base64.length + 3) % 4)`). -/
def b64UrlToPadded (input : Str) : Str :=
  let base64 := input.map b64UrlRepl
  base64 ++ (List.replicate 3 '=').drop ((base64.length + 3) % 4)

/-- `decodeBase64Url` (part_001 lines 8-20): convert base64url to
base64, restore padding, decode leniently to UTF-8.  The source wraps
this in `try`/`catch` with `return input` in the `catch`, but
`Buffer.from(·, 'base64')` and `toString('utf8')` never throw for a
string, so the `catch` branch is unreachable and the function always
returns the lenient decode — on malformed input that is the decode of
whatever valid groups remain (possibly the empty string), not the
input. -/
def decodeBase64Url (input : Str) : Str :=
  utf8Decode (lenientB64Decode (b64UrlToPadded input))

/-- The standard unpadded base64url encoding of a byte sequence.  This
is the inverse specification used to state the round-trip claim about
`decodeBase64Url`; it is not part of the source. -/
def encB64UrlBytes : List Nat → Str
  | b1 :: b2 :: b3 :: rest =>
    b64UrlChar (b1 / 4) :: b64UrlChar ((b1 % 4) * 16 + b2 / 16) ::
    b64UrlChar ((b2 % 16) * 4 + b3 / 64) :: b64UrlChar (b3 % 64) :: encB64UrlBytes rest
  | [b1, b2] =>
    [b64UrlChar (b1 / 4), b64UrlChar ((b1 % 4) * 16 + b2 / 16), b64UrlChar ((b2 % 16) * 4)]
  | [b1] => [b64UrlChar (b1 / 4), b64UrlChar ((b1 % 4) * 16)]
  | [] => []

/-- The base64url encoding of the UTF-8 bytes of a string (the caller's
transport-safe encoding of the target URL, per the spec). -/
def encodeBase64UrlSpec (s : Str) : Str := encB64UrlBytes (utf8Encode s)

/-! ## URL parsing and the Validator

`validateUrl` calls the WHATWG `URL` constructor.  The model implements
the fragment of WHATWG URL parsing relevant to scheme / hostname / port
extraction: input trimming, scheme normalisation, slash slurping for
special schemes, userinfo, bracketed IPv6 hosts, default-port elision
and port range checking.  Percent-encoded and non-ASCII hostnames are
not modelled (treated as parse failures / kept verbatim respectively);
no claim depends on them. -/

/-- Scheme body character (`[a-zA-Z0-9+.-]`). -/
def isSchemeChar (c : Char) : Bool :=
  isAlphaChar c || isDigitChar c || c = '+' || c = '-' || c = '.'

/-- WHATWG URL-constructor input preprocessing: strip leading/trailing
C0-control-or-space, then remove every ASCII tab and newline. -/
def urlPreprocess (s : Str) : Str :=
  let t := (s.dropWhile (fun c => c.toNat ≤ 0x20)).reverse.dropWhile
      (fun c => c.toNat ≤ 0x20) |>.reverse
  t.filter (fun c => !(c = '\t' || c = '\n' || c = '\r'))

/-- Result of the WHATWG `URL` constructor, restricted to the fields
`validateUrl` reads (`protocol` = scheme + `":"`, `hostname`, `port`). -/
structure ParsedUrl where
  scheme : Str
  hostname : Str
  port : Option Nat
deriving Repr, DecidableEq

/-- Split off the scheme: `[a-zA-Z][a-zA-Z0-9+.-]*` followed by `:`. -/
def schemeSplit (s : Str) : Option (Str × Str) :=
  match s with
  | c :: _ =>
    if isAlphaChar c then
      let sch := s.takeWhile isSchemeChar
      match s.drop sch.length with
      | ':' :: r => some (lowerStr sch, r)
      | _ => none
    else none
  | [] => none

/-- The special schemes of the WHATWG URL standard. -/
def specialSchemes : List Str :=
  ["http".data, "https".data, "ws".data, "wss".data, "ftp".data]

/-- Default port of a special scheme. -/
def defaultPort (scheme : Str) : Option Nat :=
  if scheme = "http".data || scheme = "ws".data then some 80
  else if scheme = "https".data || scheme = "wss".data then some 443
  else if scheme = "ftp".data then some 21
  else none

/-- Forbidden host code points (WHATWG); `%` is treated as forbidden in
the model instead of triggering percent-decoding. -/
def forbiddenHostChar (c : Char) : Bool :=
  c = '\x00' || c = '\t' || c = '\n' || c = '\r' || c = ' ' || c = '#' ||
  c = '/' || c = ':' || c = '<' || c = '>' || c = '?' || c = '@' ||
  c = '[' || c = '\\' || c = ']' || c = '^' || c = '|' || c = '%'

/-- Parse the port part (text after a host-terminating `:`). -/
def parsePortPart (sch host : Str) (p : Str) : Option ParsedUrl :=
  if p = [] then some ⟨sch, host, none⟩
  else if p.all isDigitChar then
    let n := digitsToNat p
    if n > 65535 then none
    else if defaultPort sch = some n then some ⟨sch, host, none⟩
    else some ⟨sch, host, some n⟩
  else none

/-- Parse host and optional port from the authority remainder (after
userinfo removal). -/
def parseHostPort (sch : Str) (a : Str) : Option ParsedUrl :=
  match a with
  | '[' :: rest =>
    let inside := rest.takeWhile (fun c => c ≠ ']')
    match rest.drop inside.length with
    | ']' :: tail =>
      let host := '[' :: (lowerStr inside ++ [']'])
      match tail with
      | [] => some ⟨sch, host, none⟩
      | ':' :: p => parsePortPart sch host p
      | _ => none
    | _ => none
  | _ =>
    let host := a.takeWhile (fun c => c ≠ ':')
    if host = [] then none
    else if host.any forbiddenHostChar then none
    else
      match a.drop host.length with
      | [] => some ⟨sch, lowerStr host, none⟩
      | ':' :: p => parsePortPart sch (lowerStr host) p
      | _ => none

/-- Drop a userinfo component: everything up to the last `@`. -/
def afterLastAt (s : Str) : Str :=
  if s.contains '@' then (s.reverse.takeWhile (fun c => c ≠ '@')).reverse else s

/-- The WHATWG `URL` constructor (`new URL(s)`), restricted to the
fields `validateUrl` reads; `none` models a thrown `TypeError`. -/
def parseURL (s0 : Str) : Option ParsedUrl :=
  let s := urlPreprocess s0
  match schemeSplit s with
  | none => none
  | some (sch, rest) =>
    if specialSchemes.contains sch then
      let rest1 := rest.dropWhile (fun c => c = '/' || c = '\\')
      let authority := rest1.takeWhile
        (fun c => !(c = '/' || c = '\\' || c = '?' || c = '#'))
      parseHostPort sch (afterLastAt authority)
    else
      -- non-special scheme (`javascript:`, `data:`, ...): opaque path,
      -- empty hostname; `validateUrl` rejects these by scheme before
      -- ever reading the hostname, so the hostname value is immaterial
      some ⟨sch, [], none⟩

/-! ## Security configuration and `validateUrl` -/

/-- `EXTRACTION_CONFIG.MAX_HTML_SIZE` (part_001 line 88). -/
def MAX_HTML_SIZE : Nat := 2 * 1024 * 1024

/-- `EXTRACTION_CONFIG.ALLOWED_PORTS` (part_001 line 90). -/
def ALLOWED_PORTS : List Nat := [80, 443, 8080, 8443]

/-- `EXTRACTION_CONFIG.BLOCKED_HOSTS` (part_001 line 91). -/
def BLOCKED_HOSTS : List Str :=
  ["localhost".data, "127.0.0.1".data, "0.0.0.0".data, "::1".data]

/-- `EXTRACTION_CONFIG.MAX_URLS_PER_TYPE` (part_001 line 92); used only
by the dead `iterateMatches` generator, not by `extractVideoUrls`. -/
def MAX_URLS_PER_TYPE : Nat := 5

/-- Return type of `validateUrl`. -/
structure ValidationResult where
  isValid : Bool
  url : Option Str
  error : Option Str
deriving Repr, DecidableEq

/-- `validateUrl` (part_001 lines 115-149). -/
def validateUrl (candidate : Str) : ValidationResult :=
  let cleanUrl := stripQuotes (jsTrim candidate)
  if cleanUrl = [] || cleanUrl.length > 2048 then
    ⟨false, none, some "URL too long or empty".data⟩
  else
    match parseURL cleanUrl with
    | none => ⟨false, none, some "Invalid URL".data⟩
    | some u =>
      if u.scheme ≠ "https".data ∧ u.scheme ≠ "http".data then
        ⟨false, none, some "Only HTTP and HTTPS URLs allowed".data⟩
      else if BLOCKED_HOSTS.contains (lowerStr u.hostname) then
        ⟨false, none, some "Blocked hostname".data⟩
      else if (match u.port with
               | some p => !(ALLOWED_PORTS.contains p)
               | none => false) then
        ⟨false, none, some "Port not allowed".data⟩
      else if !(u.hostname ≠ [] ∧ u.hostname.all isHostRegexChar) then
        ⟨false, none, some "Invalid hostname characters".data⟩
      else ⟨true, some cleanUrl, none⟩

/-! ## `parseQuality` (part_001 lines 109-112)

First match of `/(\d+p|\d+x\d+|hd|fhd|uhd|4k|8k)/i`, lowercased. -/

/-- Try the literal alternatives of the quality regex at the head of a
lowercased suffix. -/
def matchQualityLit (s : Str) : Option Str :=
  if leadMatch "hd".data s then some "hd".data
  else if leadMatch "fhd".data s then some "fhd".data
  else if leadMatch "uhd".data s then some "uhd".data
  else if leadMatch "4k".data s then some "4k".data
  else if leadMatch "8k".data s then some "8k".data
  else none

/-- Try all alternatives of the quality regex at the head of a
lowercased suffix, in the regex's order. -/
def matchQualityAt (s : Str) : Option Str :=
  let d1 := s.takeWhile isDigitChar
  if d1 ≠ [] then
    match s.drop d1.length with
    | 'p' :: _ => some (d1 ++ ['p'])
    | 'x' :: r2 =>
      let d2 := r2.takeWhile isDigitChar
      if d2 ≠ [] then some (d1 ++ 'x' :: d2) else matchQualityLit s
    | _ => matchQualityLit s
  else matchQualityLit s

/-- Scan for the leftmost quality match. -/
def scanQuality : Str → Option Str
  | [] => none
  | s@(_ :: t) =>
    match matchQualityAt s with
    | some m => some m
    | none => scanQuality t

/-- `parseQuality` (part_001 lines 109-112). -/
def parseQuality (url : Str) : Option Str := scanQuality (lowerStr url)

/-! ## `decodeJavaScriptPacker` (part_001 lines 299-334)

Detects Dean-Edwards-packer blocks with the regex
`eval\(function\(p,a,c,k,e,d\)\{[^}]*?return p\}\('([^']+)',(\d+),(\d+),'([^']+)'\.split\('\|'\)\)\)`
and, per block, substitutes radix-encoded tokens (whole-word, via
`\b...\b`) by dictionary words, appending each decoded payload to the
working document. -/

/-- Digit character of `Number.prototype.toString(radix)` (0-9, a-z). -/
def radixDigit (d : Nat) : Char :=
  if d < 10 then Char.ofNat (48 + d) else Char.ofNat (87 + d)

/-- Fuel-driven core of `toStringRadix`. -/
def toStringRadixAux : Nat → Nat → Nat → Str
  | 0, _, _ => []
  | fuel + 1, radix, n =>
    if n = 0 then []
    else toStringRadixAux fuel radix (n / radix) ++ [radixDigit (n % radix)]

/-- JavaScript `i.toString(radix)` for `2 ≤ radix ≤ 36`. -/
def toStringRadix (radix n : Nat) : Str :=
  if n = 0 then ['0'] else toStringRadixAux n radix n

/-- The character before the current scan position is compatible with a
`\b` boundary ahead of a word-character token. -/
def prevBoundaryOk (prev : Option Char) : Bool :=
  match prev with
  | none => true
  | some p => !isWordChar p

/-- The text after a candidate token occurrence is compatible with a
trailing `\b` boundary. -/
def afterBoundaryOk (s : Str) : Bool :=
  match s with
  | [] => true
  | d :: _ => !isWordChar d

/-- Fuel-driven scan of `String.prototype.replace(new RegExp('\\b' + tok
+ '\\b', 'g'), rep)`: replace every whole-word occurrence of `tok`,
scanning left to right over the original string. -/
def replaceWW (tok rep : Str) : Nat → Option Char → Str → Str
  | 0, _, s => s
  | _ + 1, _, [] => []
  | fuel + 1, prev, c :: t =>
    if tok ≠ [] && prevBoundaryOk prev && leadMatch tok (c :: t) &&
        afterBoundaryOk ((c :: t).drop tok.length) then
      rep ++ replaceWW tok rep fuel (some (tok.getLastD 'x')) ((c :: t).drop tok.length)
    else
      c :: replaceWW tok rep fuel (some c) t

/-- Replace all whole-word occurrences of `tok` in `s` by `rep`. -/
def replaceWholeWord (s tok rep : Str) : Str :=
  replaceWW tok rep s.length none s

/-- The token-substitution loop of `decodeJavaScriptPacker` (lines
315-321): walk `i` from `count - 1` down to `0` and, when
`keywords[i]` is non-empty, replace whole-word occurrences of
`i.toString(radix)` by `keywords[i]`. -/
def decodePacked (packed : Str) (radix count : Nat) (keywords : List Str) : Str :=
  (List.range count).reverse.foldl
    (fun decoded i =>
      if keywords.getD i [] ≠ [] then
        replaceWholeWord decoded (toStringRadix radix i) (keywords.getD i [])
      else decoded)
    packed

/-- Match a literal at the head of the text. -/
def expectLit (lit s : Str) : Option Str :=
  if leadMatch lit s then some (s.drop lit.length) else none

/-- The lazy `[^}]*?` segment of the packer regex: consume non-`}`
characters minimally until the literal `return p}('` matches. -/
def lazyToReturn : Str → Option Str
  | [] => none
  | c :: t =>
    if leadMatch "return p\x7d('".data (c :: t) then some ((c :: t).drop 11)
    else if c = '}' then none
    else lazyToReturn t

/-- Try to match the packer regex at the head of the text, yielding
`(payload, radix, count, keywords, rest-after-match)`. -/
def matchPackerAt (s : Str) : Option (Str × Nat × Nat × List Str × Str) := do
  let s1 ← expectLit "eval(function(p,a,c,k,e,d)\x7b".data s
  let s2 ← lazyToReturn s1
  let payload := s2.takeWhile (fun c => c ≠ '\'')
  if payload = [] then none else do
  let s3 ← expectLit "',".data (s2.drop payload.length)
  let radixStr := s3.takeWhile isDigitChar
  if radixStr = [] then none else do
  let s4 ← expectLit ",".data (s3.drop radixStr.length)
  let countStr := s4.takeWhile isDigitChar
  if countStr = [] then none else do
  let s5 ← expectLit ",'".data (s4.drop countStr.length)
  let dict := s5.takeWhile (fun c => c ≠ '\'')
  if dict = [] then none else do
  let s6 ← expectLit "'.split('|')))".data (s5.drop dict.length)
  some (payload, digitsToNat radixStr, digitsToNat countStr, dict.splitOn '|', s6)

/-- Leftmost packer-regex match in the text. -/
def findPacker : Str → Option (Str × Nat × Nat × List Str × Str)
  | [] => none
  | c :: t =>
    match matchPackerAt (c :: t) with
    | some r => some r
    | none => findPacker t

/-- All packer-regex matches, in document order (the `exec` loop of
lines 304-331). -/
def packerBlocks : Nat → Str → List (Str × Nat × Nat × List Str)
  | 0, _ => []
  | fuel + 1, s =>
    match findPacker s with
    | none => []
    | some (p, r, c, ks, rest) => (p, r, c, ks) :: packerBlocks fuel rest

/-- Decode one matched block.  `none` models the `RangeError` thrown by
`i.toString(radix)` for a radix outside `[2, 36]`, which the `catch`
turns into skipping the block. -/
def decodeBlock (p : Str) (radix count : Nat) (ks : List Str) : Option Str :=
  if 2 ≤ radix ∧ radix ≤ 36 then some (decodePacked p radix count ks) else none

/-- `decodeJavaScriptPacker` (part_001 lines 299-334): append each
successfully decoded payload (preceded by `'\n'`) to the original
document. -/
def decodeJavaScriptPacker (html : Str) : Str :=
  (packerBlocks html.length html).foldl
    (fun acc b =>
      match decodeBlock b.1 b.2.1 b.2.2.1 b.2.2.2 with
      | some d => acc ++ '\n' :: d
      | none => acc)
    html

/-! ## The pattern matchers of `VIDEO_URL_PATTERNS` (part_001 lines 23-84)

Each JavaScript regex (all with flags `gi`) is translated into an
explicit matcher `matchPatternAt` trying to match at the head of a
suffix, returning the full match length (for `lastIndex` advancement)
and the candidate string (`match[1] || match[0]`; every capture group of
these patterns is provably non-empty, so the candidate is the capture
when one exists and the whole match otherwise). -/

/-- Case-insensitive literal match at the head of the text. -/
def leadMatchCI (lit s : Str) : Bool :=
  leadMatch (lowerStr lit) (lowerStr (s.take lit.length))

/-- Character allowed in the unquoted URL runs `[^\s"'<>]`. -/
def isUrlRunChar (c : Char) : Bool :=
  !(isJsWhitespace c || c = '"' || c = '\'' || c = '<' || c = '>')

/-- Does the run contain one of the extensions (case-insensitively)? -/
def hasAnyExtCI (run : Str) (exts : List Str) : Bool :=
  exts.any (fun e => containsSubCI run e)

/-- Match `https?:\/\/` (case-insensitively), returning its length. -/
def matchHttpPrefix (s : Str) : Option Nat :=
  if leadMatchCI "https://".data s then some 8
  else if leadMatchCI "http://".data s then some 7
  else none

/-- Match `["']inner["']` at the head, where `inner` is the maximal run
of non-quote characters and must satisfy `cond`; returns the full match
length and `inner`. -/
def matchQuotedInner (cond : Str → Bool) (s : Str) : Option (Nat × Str) :=
  match s with
  | q :: t =>
    if isQuote q then
      let inner := t.takeWhile (fun c => !isQuote c)
      match t.drop inner.length with
      | _ :: _ => if cond inner then some (inner.length + 2, inner) else none
      | [] => none
    else none
  | [] => none

/-- Skip `\s*`, returning how many characters were skipped. -/
def skipWs (s : Str) : Nat × Str :=
  let w := s.takeWhile isJsWhitespace
  (w.length, s.drop w.length)

/-- Match `\s*[:=]\s*["']inner["']` with `inner` satisfying `cond`. -/
def matchAssignQuoted (cond : Str → Bool) (s : Str) : Option (Nat × Str) :=
  let (w1, s1) := skipWs s
  match s1 with
  | c :: t =>
    if c = ':' || c = '=' then
      let (w2, s2) := skipWs t
      (matchQuotedInner cond s2).map (fun r => (w1 + 1 + w2 + r.1, r.2))
    else none
  | [] => none

/-- Try keyword alternatives in the regex's order, each continued by
`k` applied to the text after the keyword. -/
def tryKws (k : Nat → Str → Option (Nat × Str)) : List Str → Str → Option (Nat × Str)
  | [], _ => none
  | kw :: rest, s =>
    match (if leadMatchCI kw s then k kw.length (s.drop kw.length) else none) with
    | some r => some r
    | none => tryKws k rest s

/-- Candidate condition `https?:\/\/[^"']*\.(?:ext)[^"']*`: starts with
an HTTP(S) prefix and contains one of the extensions after it. -/
def isHttpWithExt (exts : List Str) (inner : Str) : Bool :=
  match matchHttpPrefix inner with
  | some n => hasAnyExtCI (inner.drop n) exts
  | none => false

/-- `∃` a position in the (lowercased) run where one of `mids` matches
and one of `exts` occurs strictly after it (patterns 10 and 11). -/
def existsMidThenExt (mids exts : List Str) : Str → Bool
  | [] => false
  | c :: t =>
    mids.any (fun m =>
      leadMatch m (c :: t) && exts.any (fun e => containsSub ((c :: t).drop m.length) e)) ||
    existsMidThenExt mids exts t

/-- Does the (lowercased) string end with the (lowercase) suffix? -/
def endsWithStr (s suf : Str) : Bool :=
  s.length ≥ suf.length && s.drop (s.length - suf.length) = suf

/-- Patterns 1/2 (`direct`, `video`): `https?:\/\/[^\s"'<>]*\.(?:ext)[^\s"'<>]*`. -/
def matchDirectAt (exts : List Str) (s : Str) : Option (Nat × Str) :=
  match matchHttpPrefix s with
  | some n =>
    let run := (s.drop n).takeWhile isUrlRunChar
    if hasAnyExtCI run exts then some (n + run.length, s.take n ++ run) else none
  | none => none

/-- Pattern 4 (`javascript`): after the keyword,
`\s+\w+\s*[:=]\s*["'](https?:\/\/[^"']*\.(?:m3u8|mp4)[^"']*)["']`. -/
def matchVarTail (s : Str) : Option (Nat × Str) :=
  let ws1 := s.takeWhile isJsWhitespace
  if ws1 = [] then none
  else
    let s1 := s.drop ws1.length
    let w := s1.takeWhile isWordChar
    if w = [] then none
    else
      (matchAssignQuoted (isHttpWithExt [".m3u8".data, ".mp4".data]) (s1.drop w.length)).map
        (fun r => (ws1.length + w.length + r.1, r.2))

/-- Pattern 6 (`jwplayer_sources`):
`sources\s*:\s*\[\s*\{\s*file\s*:\s*["']([^"']+\.(?:m3u8|mp4)[^"']*)["']`. -/
def matchSourcesAt (s : Str) : Option (Nat × Str) :=
  if leadMatchCI "sources".data s then
    let (w1, s1) := skipWs (s.drop 7)
    match s1 with
    | ':' :: t1 =>
      let (w2, s2) := skipWs t1
      match s2 with
      | '[' :: t2 =>
        let (w3, s3) := skipWs t2
        match s3 with
        | '{' :: t3 =>
          let (w4, s4) := skipWs t3
          if leadMatchCI "file".data s4 then
            (matchAssignQuoted
                (fun inner => hasAnyExtCI (inner.drop 1) [".m3u8".data, ".mp4".data])
                (s4.drop 4)).map
              (fun r => (7 + w1 + 1 + w2 + 1 + w3 + 1 + w4 + 4 + r.1, r.2))
          else none
        | _ => none
      | _ => none
    | _ => none
  else none

/-- Pattern 12 (`sibnet_relative`): `src\s*:\s*["']([^"']*\/v\/[^"']*\.mp4)["']`.
The capture must end with `.mp4` (immediately before the closing
quote) and contain `/v/` before that suffix. -/
def sibnetInnerOk (inner : Str) : Bool :=
  let l := lowerStr inner
  endsWithStr l ".mp4".data && containsSub (l.take (l.length - 4)) "/v/".data

/-- Pattern 12 matcher: `src\s*:\s*["']inner["']` with `sibnetInnerOk`. -/
def matchSibnetAt (s : Str) : Option (Nat × Str) :=
  if leadMatchCI "src".data s then
    let (w1, s1) := skipWs (s.drop 3)
    match s1 with
    | ':' :: t1 =>
      let (w2, s2) := skipWs t1
      (matchQuotedInner sibnetInnerOk s2).map (fun r => (3 + w1 + 1 + w2 + r.1, r.2))
    | _ => none
  else none

/-- The twelve entries of `VIDEO_URL_PATTERNS`, in their source order. -/
inductive PatKind
  | direct | video | quoted | javascript | jwplayer | jwplayerSources
  | obfuscatedConfig | quotedVideo | api | cdn | vidmoly | sibnetRelative
deriving Repr, DecidableEq

/-- The `type` string of each pattern. -/
def patternType : PatKind → Str
  | .direct => "direct".data
  | .video => "video".data
  | .quoted => "quoted".data
  | .javascript => "javascript".data
  | .jwplayer => "jwplayer".data
  | .jwplayerSources => "jwplayer_sources".data
  | .obfuscatedConfig => "obfuscated_config".data
  | .quotedVideo => "quoted_video".data
  | .api => "api".data
  | .cdn => "cdn".data
  | .vidmoly => "vidmoly".data
  | .sibnetRelative => "sibnet_relative".data

/-- `VIDEO_URL_PATTERNS` (part_001 lines 23-84), in order. -/
def VIDEO_URL_PATTERNS : List PatKind :=
  [.direct, .video, .quoted, .javascript, .jwplayer, .jwplayerSources,
   .obfuscatedConfig, .quotedVideo, .api, .cdn, .vidmoly, .sibnetRelative]

/-- Matcher for each pattern at the head of a suffix: full match length
and candidate. -/
def matchPatternAt : PatKind → Str → Option (Nat × Str)
  | .direct => matchDirectAt [".m3u8".data, ".mp4".data]
  | .video => matchDirectAt
      [".webm".data, ".mkv".data, ".avi".data, ".mov".data, ".flv".data]
  | .quoted => matchQuotedInner (isHttpWithExt
      [".m3u8".data, ".mp4".data, ".webm".data, ".mkv".data, ".avi".data,
       ".mov".data, ".flv".data])
  | .javascript => tryKws (fun n s => (matchVarTail s).map (fun r => (n + r.1, r.2)))
      ["var".data, "const".data, "let".data, "window".data]
  | .jwplayer => tryKws (fun n s =>
      (matchAssignQuoted (fun inner => hasAnyExtCI (inner.drop 1)
          [".m3u8".data, ".mp4".data]) s).map (fun r => (n + r.1, r.2)))
      ["hls4".data, "hls3".data, "hls2".data, "file".data]
  | .jwplayerSources => matchSourcesAt
  | .obfuscatedConfig => tryKws (fun n s =>
      (matchAssignQuoted (fun inner => inner ≠ []) s).map (fun r => (n + r.1, r.2)))
      ["hls4".data, "hls3".data, "hls2".data, "file".data]
  | .quotedVideo => matchQuotedInner
      (fun inner => hasAnyExtCI inner [".m3u8".data, ".mp4".data, ".txt".data])
  | .api => matchQuotedInner (fun inner =>
      match matchHttpPrefix inner with
      | some n => hasAnyExtCI (inner.drop n)
          ["api".data, "source".data, "video".data, "stream".data,
           "player".data, "embed".data]
      | none => false)
  | .cdn => matchQuotedInner (fun inner =>
      match matchHttpPrefix inner with
      | some n => existsMidThenExt
          [".cdn.".data, ".stream.".data, ".video.".data, ".media.".data]
          [".mp4".data, ".m3u8".data] (lowerStr (inner.drop n))
      | none => false)
  | .vidmoly => matchQuotedInner (fun inner =>
      match matchHttpPrefix inner with
      | some n => existsMidThenExt ["vidmoly".data]
          [".mp4".data, ".m3u8".data] (lowerStr (inner.drop n))
      | none => false)
  | .sibnetRelative => matchSibnetAt

/-- `exec` driver: find the leftmost match of a pattern in the text,
returning the candidate and the text after the match. -/
def execPattern (p : PatKind) : Str → Option (Str × Str)
  | [] => none
  | c :: t =>
    match matchPatternAt p (c :: t) with
    | some (n, cand) => some (cand, (c :: t).drop (max n 1))
    | none => execPattern p t

/-! ## `analyzeVidMolyJavaScript` (part_001 lines 219-296) -/

/-- A typed extraction candidate (`{ type, url, quality }`). -/
structure ExtCandidate where
  ptype : Str
  url : Str
  quality : Option Str
deriving Repr, DecidableEq

/-- Concatenation of mapped lists. -/
def concatMap (f : α → List β) (l : List α) : List β :=
  l.foldr (fun a acc => f a ++ acc) []

/-- Character of the loose base64 run pattern `[A-Za-z0-9+/=]`. -/
def b64RunChar (c : Char) : Bool :=
  isAlphaChar c || isDigitChar c || c = '+' || c = '/' || c = '='

/-- All matches of `/[A-Za-z0-9+/=]{20,}/g`: the maximal base64-character
runs of length at least 20, in document order. -/
def scanB64Runs : Nat → Str → List Str
  | 0, _ => []
  | _ + 1, [] => []
  | fuel + 1, c :: t =>
    if b64RunChar c then
      let run := (c :: t).takeWhile b64RunChar
      if run.length ≥ 20 then run :: scanB64Runs fuel ((c :: t).drop run.length)
      else scanB64Runs fuel ((c :: t).drop run.length)
    else scanB64Runs fuel t

/-- `https?:\/\/[^\s"'<>]+\.(?:m3u8|mp4)[^\s"'<>]*` at the head: like
the `direct` pattern but with a non-empty run before the extension. -/
def matchDirectPlusAt (s : Str) : Option (Nat × Str) :=
  match matchHttpPrefix s with
  | some n =>
    let run := (s.drop n).takeWhile isUrlRunChar
    if hasAnyExtCI (run.drop 1) [".m3u8".data, ".mp4".data] then
      some (n + run.length, s.take n ++ run)
    else none
  | none => none

/-- All matches of the decoded-content URL regex, in order. -/
def scanVidDecodedUrls : Nat → Str → List Str
  | 0, _ => []
  | _ + 1, [] => []
  | fuel + 1, c :: t =>
    match matchDirectPlusAt (c :: t) with
    | some (n, m) => m :: scanVidDecodedUrls fuel ((c :: t).drop (max n 1))
    | none => scanVidDecodedUrls fuel t

/-- `kw\s*[:=]\s*["']([^"']+)["']` at the head of the text. -/
def matchKVAt (kw : Str) (s : Str) : Option (Nat × Str) :=
  if leadMatchCI kw s then
    (matchAssignQuoted (fun inner => inner ≠ []) (s.drop kw.length)).map
      (fun r => (kw.length + r.1, r.2))
  else none

/-- All captures of `kw\s*[:=]\s*["']([^"']+)["']` over the text. -/
def scanKeyQuoted (kw : Str) : Nat → Str → List Str
  | 0, _ => []
  | _ + 1, [] => []
  | fuel + 1, c :: t =>
    match matchKVAt kw (c :: t) with
    | some (n, cand) => cand :: scanKeyQuoted kw fuel ((c :: t).drop (max n 1))
    | none => scanKeyQuoted kw fuel t

/-- `kw\s*\(\s*["']([^"']+)["']\s*\)` at the head of the text. -/
def matchCallAt (kw : Str) (s : Str) : Option (Nat × Str) :=
  if leadMatchCI kw s then
    let (w1, s1) := skipWs (s.drop kw.length)
    match s1 with
    | '(' :: t1 =>
      let (w2, s2) := skipWs t1
      match matchQuotedInner (fun inner => inner ≠ []) s2 with
      | some (n, inner) =>
        let (w3, s3) := skipWs (s2.drop n)
        match s3 with
        | ')' :: _ => some (kw.length + w1 + 1 + w2 + n + w3 + 1, inner)
        | _ => none
      | none => none
    | _ => none
  else none

/-- All captures of the function-call pattern over the text. -/
def scanCall (kw : Str) : Nat → Str → List Str
  | 0, _ => []
  | _ + 1, [] => []
  | fuel + 1, c :: t =>
    match matchCallAt kw (c :: t) with
    | some (n, cand) => cand :: scanCall kw fuel ((c :: t).drop (max n 1))
    | none => scanCall kw fuel t

/-- `analyzeVidMolyJavaScript` (part_001 lines 219-296): base64 deep
pass, JS-variable pass (`videoUrl`, `streamUrl`, `file`, `src`) and
function-call pass (`loadVideo`, `playVideo`, `setVideo`); candidate
URLs are pushed verbatim after an extension and `validateUrl` check. -/
def analyzeVidMolyJavaScript (html : Str) : List ExtCandidate :=
  let pass1 := concatMap (fun run =>
      let decoded := utf8Decode (lenientB64Decode run)
      if containsSub decoded ".m3u8".data || containsSub decoded ".mp4".data then
        (scanVidDecodedUrls decoded.length decoded).filterMap (fun u =>
          if (validateUrl u).isValid then
            some ⟨"vidmoly_decoded".data, u, parseQuality u⟩
          else none)
      else []) (scanB64Runs html.length html)
  let pass2 := concatMap (fun kw =>
      (scanKeyQuoted kw html.length html).filterMap (fun u =>
        if (containsSub u ".m3u8".data || containsSub u ".mp4".data) &&
            (validateUrl u).isValid then
          some ⟨"vidmoly_js_var".data, u, parseQuality u⟩
        else none))
      ["videoUrl".data, "streamUrl".data, "file".data, "src".data]
  let pass3 := concatMap (fun kw =>
      (scanCall kw html.length html).filterMap (fun u =>
        if (containsSub u ".m3u8".data || containsSub u ".mp4".data) &&
            (validateUrl u).isValid then
          some ⟨"vidmoly_function".data, u, parseQuality u⟩
        else none))
      ["loadVideo".data, "playVideo".data, "setVideo".data]
  pass1 ++ pass2 ++ pass3

/-! ## `extractVideoUrls` (part_001 lines 337-434) -/

/-- The in-function constant `MAX_PER_PATTERN` (line 392). -/
def MAX_PER_PATTERN : Nat := 3

/-- The in-function constant `MAX_TOTAL_URLS` of `extractVideoUrls`
(line 361; the dead `iterateMatches` generator has its own, equal
to 15). -/
def MAX_TOTAL_URLS : Nat := 10

/-- `originalUrl.replace(/\/embed\/.*$/, '')`: cut the string at the
leftmost occurrence of `/embed/`. -/
def removeEmbedTail : Str → Str
  | [] => []
  | c :: t =>
    if leadMatch "/embed/".data (c :: t) then [] else c :: removeEmbedTail t

/-- Candidate rewriting (lines 397-408): promote SibNet-relative paths
to absolute URLs, and prefix obfuscated-config / quoted-video relative
candidates with the embed page's base URL. -/
def rewriteCandidate (ptype : Str) (candidate originalUrl : Str) : Str :=
  if ptype = "sibnet_relative".data ∧ ¬ leadMatch "http".data candidate then
    "https://video.sibnet.ru".data ++
      (if leadMatch "/".data candidate then [] else ['/']) ++ candidate
  else if (ptype = "obfuscated_config".data ∨ ptype = "quoted_video".data) ∧
      ¬ leadMatch "http".data candidate then
    if containsSub candidate ".m3u8".data || containsSub candidate ".mp4".data ||
        containsSub candidate ".txt".data then
      removeEmbedTail originalUrl ++
        (if leadMatch "/".data candidate then [] else ['/']) ++ candidate
    else candidate
  else candidate

/-- Mutable state of the extraction loops: the `uniqueUrls` set, the
`urls` accumulator and the `totalUrlsFound` counter. -/
structure ExtState where
  uniq : List Str
  urls : List ExtCandidate
  total : Nat
deriving Repr

/-- Add a unique candidate to the state. -/
def addCandidate (st : ExtState) (c : ExtCandidate) : ExtState :=
  { uniq := c.url :: st.uniq, urls := st.urls ++ [c], total := st.total + 1 }

/-- The candidate-processing block of the inner loop (lines 410-421):
on a unique, valid candidate, record it and bump both counters. -/
def stepCandidate (p : PatKind) (st : ExtState) (patCount : Nat)
    (v : ValidationResult) : ExtState × Nat :=
  match v.isValid, v.url with
  | true, some u =>
    if st.uniq.contains u then (st, patCount)
    else (addCandidate st ⟨patternType p, u, parseQuality u⟩, patCount + 1)
  | _, _ => (st, patCount)

/-- Inner `while` loop over matches of one pattern (lines 394-426):
the match cap `MAX_PER_PATTERN` is consulted after each `exec`,
unique validated candidates are accumulated, and the loop breaks as
soon as `totalUrlsFound` reaches `MAX_TOTAL_URLS`. -/
def patLoop (p : PatKind) (origUrl : Str) : Nat → ExtState → Nat → Str → ExtState
  | 0, st, _, _ => st
  | fuel + 1, st, patCount, rest =>
    match execPattern p rest with
    | none => st
    | some (cand, rest') =>
      if patCount ≥ MAX_PER_PATTERN then st
      else
        let pr := stepCandidate p st patCount
          (validateUrl (rewriteCandidate (patternType p) cand origUrl))
        if pr.1.total ≥ MAX_TOTAL_URLS then pr.1
        else patLoop p origUrl fuel pr.1 pr.2 rest'

/-- Outer `for` loop over `VIDEO_URL_PATTERNS` (lines 379-427), with the
global-cap early break (the timeout break never fires in the model). -/
def patternsLoop (origUrl html : Str) : List PatKind → ExtState → ExtState
  | [], st => st
  | p :: ps, st =>
    if st.total ≥ MAX_TOTAL_URLS then st
    else patternsLoop origUrl html ps (patLoop p origUrl (html.length + 1) st 0 html)

/-- The VidMoly special pass of `extractVideoUrls` (lines 365-376):
candidates from `analyzeVidMolyJavaScript` are deduplicated and added
with no cap check. -/
def vidmolyPhase (html : Str) (st : ExtState) : ExtState :=
  if containsSub html "vidmoly".data || containsSub html "VidMoly".data then
    (analyzeVidMolyJavaScript html).foldl
      (fun st c => if st.uniq.contains c.url then st else addCandidate st c) st
  else st

/-- The size guard of `extractVideoUrls` (lines 339-342): truncate
oversized documents to `MAX_HTML_SIZE`. -/
def truncateHtml (html0 : Str) : Str :=
  if html0.length > MAX_HTML_SIZE then html0.take MAX_HTML_SIZE else html0

/-- `extractVideoUrls` (part_001 lines 337-434): truncate oversized
documents, return `[]` on empty input, decode packer blocks, run the
VidMoly special pass, then the capped pattern loop.  (The `try`/`catch`
around the loop is unreachable in the pure model.) -/
def extractVideoUrls (html0 originalUrl : Str) : List ExtCandidate :=
  let html1 := truncateHtml html0
  if html1.length = 0 then []
  else
    let html := decodeJavaScriptPacker html1
    let st1 := vidmolyPhase html ⟨[], [], 0⟩
    (patternsLoop originalUrl html VIDEO_URL_PATTERNS st1).urls

/-! ## `performResolution` (part_001 lines 503-641) and the handler -/

/-- Character kept verbatim by `encodeURIComponent`
(`A-Z a-z 0-9 - _ . ! ~ * ' ( )`). -/
def uriUnreserved (c : Char) : Bool :=
  isAlphaChar c || isDigitChar c || c = '-' || c = '_' || c = '.' ||
  c = '!' || c = '~' || c = '*' || c = '\'' || c = '(' || c = ')'

/-- Uppercase hexadecimal digit. -/
def hexDigitUpper (n : Nat) : Char :=
  if n < 10 then Char.ofNat (48 + n) else Char.ofNat (55 + n)

/-- Percent-escape of one byte. -/
def pctByte (b : Nat) : Str := ['%', hexDigitUpper (b / 16), hexDigitUpper (b % 16)]

/-- JavaScript `encodeURIComponent`: unreserved characters kept, all
others percent-encoded per UTF-8 byte. -/
def encodeURIComponent (s : Str) : Str :=
  concatMap (fun c =>
    if uriUnreserved c then [c]
    else concatMap pctByte (utf8EncodeChar c.toNat)) s

/-- Provider classification record (`{ hostname, reliability,
description }`). -/
structure ProviderInfo where
  hostname : Str
  reliability : Nat
  description : Str
deriving Repr, DecidableEq

/-- Modelled from the spec: `getProviderInfo` lives in
`~/server/utils/videoProviders`, which is not under `src/`.  Per spec
§4.7 it "maps a validated URL's hostname to a static reliability score
via ordered substring matching against a fixed table of known hosting
providers", with unknown hostnames receiving no entry (the caller turns
a missing entry into `provider: null`).  The fixed table is a parameter
of the model. -/
def getProviderInfo (table : List ProviderInfo) (url : Str) : Option ProviderInfo :=
  let host := match parseURL url with
    | some u => u.hostname
    | none => []
  table.find? (fun p => containsSub host p.hostname)

/-- A `ValidatedSource` of the response (lines 578-589, 609-612). -/
structure ValidatedSource where
  type : Str
  url : Str
  directUrl : Str
  proxiedUrl : Str
  quality : Option Str
  provider : Option ProviderInfo
deriving Repr, DecidableEq

/-- The video-type cascade of `performResolution` (lines 567-576):
substring containment checked in the order `.m3u8`, `.mp4`, `.webm`. -/
def videoTypeOf (u : Str) : Str :=
  if containsSub u ".m3u8".data then "hls".data
  else if containsSub u ".mp4".data then "mp4".data
  else if containsSub u ".webm".data then "webm".data
  else "unknown".data

/-- Decimal rendering of a natural number. -/
def natToStr (n : Nat) : Str := (Nat.repr n).data

/-- Serialisation of `new URL(u).origin` for an HTTP(S) URL. -/
def originString (u : ParsedUrl) : Str :=
  u.scheme ++ "://".data ++ u.hostname ++
    (match u.port with
     | some p => ':' :: natToStr p
     | none => [])

/-- `new URL(url).origin`; a parse failure would throw inside the
handler's `try`, but on the paths exercised here every URL given to it
parses. -/
def originOf (url : Str) : Str :=
  match parseURL url with
  | some u => originString u
  | none => []

/-- Build the `ValidatedSource` stored in the `uniqueUrls` map
(lines 567-589): `url`/`directUrl` are the extracted URL, `proxiedUrl`
carries the extracted URL, the target URL as referer and the target's
origin. -/
def mkSource (table : List ProviderInfo) (targetUrl : Str) (urlData : ExtCandidate) :
    ValidatedSource :=
  { type := videoTypeOf urlData.url
    url := urlData.url
    directUrl := urlData.url
    proxiedUrl := "/api/proxy?url=".data ++ encodeURIComponent urlData.url ++
      "&referer=".data ++ encodeURIComponent targetUrl ++
      "&origin=".data ++ encodeURIComponent (originOf targetUrl) ++
      "&rewrite=1".data
    quality := urlData.quality
    provider := getProviderInfo table urlData.url }

/-- The `uniqueUrls` map fold of lines 564-591: deduplicate extracted
candidates by `url`, first occurrence wins, insertion order kept. -/
def dedupSources (table : List ProviderInfo) (targetUrl : Str)
    (extracted : List ExtCandidate) : List ValidatedSource :=
  extracted.foldl
    (fun acc urlData =>
      if acc.any (fun s => s.url = urlData.url) then acc
      else acc ++ [mkSource table targetUrl urlData]) []

/-- `a.provider?.reliability || 0` (lines 595-596). -/
def relOf (s : ValidatedSource) : Nat :=
  match s.provider with
  | some p => p.reliability
  | none => 0

/-- Stable insertion used to model the (stable, ES2019+)
`Array.prototype.sort` with comparator `(a, b) => relB - relA`: insert
`x` before the first element of strictly smaller reliability, after all
earlier elements of greater-or-equal reliability. -/
def insertByRel (l : List ValidatedSource) (x : ValidatedSource) : List ValidatedSource :=
  match l with
  | [] => [x]
  | y :: ys => if relOf y < relOf x then x :: y :: ys else y :: insertByRel ys x

/-- The reliability sort of lines 593-598 (descending, ties keep
first-seen order). -/
def sortByReliability (l : List ValidatedSource) : List ValidatedSource :=
  l.foldl insertByRel []

/-- The proxy rewrite of lines 609-612: replace the `url` field by the
relay-endpoint URL (referer falls back from the `referer` query
parameter to the target URL; origin is that of the source URL). -/
def proxyRewrite (targetUrl referer : Str) (s : ValidatedSource) : ValidatedSource :=
  { s with
    url := "/api/proxy?url=".data ++ encodeURIComponent s.url ++
      "&referer=".data ++ encodeURIComponent (if referer ≠ [] then referer else targetUrl) ++
      "&origin=".data ++ encodeURIComponent (originOf s.url) ++
      "&rewrite=1".data }

/-- `ResolutionResult`: the externally visible response shape. -/
structure ResolutionResult where
  ok : Bool
  urls : List ValidatedSource
  message : Str
deriving Repr, DecidableEq

/-- Outcome of the single `fetch(url, fetchOptions)` call of
`performResolution` (line 544): an HTTP response, a transport error, or
the `AbortError` fired by the 3-second timeout. -/
inductive FetchOutcome
  | success (status : Nat) (statusText : Str) (body : Str)
  | networkError (msg : Str)
  | timedOut
deriving Repr, DecidableEq

/-- `performResolution` (part_001 lines 503-641), given the outcome of
its fetch.  A non-2xx status (`!response.ok`) aborts before extraction;
otherwise the body is extracted, deduplicated, sorted and
proxy-rewritten, and the result is `ok: true` regardless of how many
URLs survived. -/
def performResolution (table : List ProviderInfo) (url referer : Str)
    (outcome : FetchOutcome) : ResolutionResult :=
  match outcome with
  | .timedOut => ⟨false, [], "Request timed out after 3 seconds".data⟩
  | .networkError m => ⟨false, [], "Network error: ".data ++ m⟩
  | .success status statusText body =>
    if ¬(200 ≤ status ∧ status < 300) then
      ⟨false, [], "Failed to fetch: ".data ++ natToStr status ++ ' ' :: statusText⟩
    else
      let extracted := extractVideoUrls body url
      let finalUrls := sortByReliability (dedupSources table url extracted)
      let proxiedUrls := finalUrls.map (proxyRewrite url referer)
      ⟨true, proxiedUrls,
        "Fetched ".data ++ natToStr body.length ++ " bytes. Found ".data ++
        natToStr finalUrls.length ++
        " unique video URLs, sorted by provider reliability.".data⟩

/-- The URLs `performResolution` passes to `fetch`.  In the source
(lines 503-544) the single `fetch(url, fetchOptions)` call is reached
unconditionally: the statements before it only build headers, the
abort timer and the fetch options — no scheme, hostname or blocklist
check of `url` occurs on the way. -/
def performResolutionFetchTargets (url : Str) : List Str := [url]

/-- `performResolution` together with its network trace: the result and
the list of URLs dereferenced over the network. -/
def performResolutionTrace (table : List ProviderInfo) (url referer : Str)
    (outcome : FetchOutcome) : ResolutionResult × List Str :=
  (performResolution table url referer outcome, performResolutionFetchTargets url)

/-! ## The cache gate (part_001 lines 436-500) -/

/-- Modelled from the spec: `REDIS_CACHE_TTL.GENERAL` comes from
`~/server/utils/redis-cache`, which is not under `src/`; the source
comment (line 485) and spec fix the resolution TTL at 10 minutes. -/
def REDIS_CACHE_TTL_GENERAL : Nat := 600

/-- Standard base64 alphabet character (`+`/`/` variants). -/
def b64StdChar (n : Nat) : Char :=
  if n = 62 then '+' else if n = 63 then '/' else b64UrlChar n

/-- Standard padded base64 encoding of bytes
(`Buffer.prototype.toString('base64')`). -/
def encB64Bytes : List Nat → Str
  | b1 :: b2 :: b3 :: rest =>
    b64StdChar (b1 / 4) :: b64StdChar ((b1 % 4) * 16 + b2 / 16) ::
    b64StdChar ((b2 % 16) * 4 + b3 / 64) :: b64StdChar (b3 % 64) :: encB64Bytes rest
  | [b1, b2] =>
    [b64StdChar (b1 / 4), b64StdChar ((b1 % 4) * 16 + b2 / 16),
     b64StdChar ((b2 % 16) * 4), '=']
  | [b1] => [b64StdChar (b1 / 4), b64StdChar ((b1 % 4) * 16), '=', '=']
  | [] => []

/-- The cache-key derivation of line 472: `'resolve:' +
base64(url + referer)` with `+`→`-`, `/`→`_` and trailing `=` stripped. -/
def buildCacheKey (url referer : Str) : Str :=
  let b64 := encB64Bytes (utf8Encode (url ++ referer))
  let safe := b64.map (fun c => if c = '+' then '-' else if c = '/' then '_' else c)
  "resolve:".data ++ (safe.reverse.dropWhile (fun c => c = '=')).reverse

/-- A cache entry as written by `cache.set(cacheKey, result, ttl)`. -/
structure CacheEntry where
  key : Str
  payload : ResolutionResult
  ttl : Nat
deriving Repr, DecidableEq

/-- `cache.get(key)` over the modelled cache state. -/
def cacheGet (c : List CacheEntry) (k : Str) : Option ResolutionResult :=
  (c.find? (fun e => e.key = k)).map CacheEntry.payload

/-- The query parameters of a `/api/resolve` call (`u64`, `url`,
`referer`); `none` models an absent parameter. -/
structure ResolveQuery where
  u64 : Option Str
  url : Option Str
  referer : Option Str

/-- Target selection of the event handler (lines 450-456): the decoded
`u64` parameter, or the `url` parameter (JS truthiness: an empty string
falls through). -/
def queryTarget (q : ResolveQuery) : Str :=
  match q.u64 with
  | some v => if v ≠ [] then decodeBase64Url v else q.url.getD []
  | none => q.url.getD []

/-- The referer query parameter, `''` when absent. -/
def queryReferer (q : ResolveQuery) : Str := q.referer.getD []

/-- The event handler (part_001 lines 436-500), after the CORS/OPTIONS
preamble: reject a missing target, consult the cache, and on a miss
resolve and write back only an `ok` result with a non-empty `urls`
list.  Returns the response and the new cache state. -/
def handleResolve (table : List ProviderInfo) (cache : List CacheEntry)
    (q : ResolveQuery) (outcome : FetchOutcome) :
    ResolutionResult × List CacheEntry :=
  let url := queryTarget q
  if url = [] then (⟨false, [], "Missing url or u64 parameter".data⟩, cache)
  else
    let referer := queryReferer q
    let cacheKey := buildCacheKey url referer
    match cacheGet cache cacheKey with
    | some cached => (cached, cache)
    | none =>
      let res := performResolution table url referer outcome
      if res.ok ∧ res.urls ≠ [] then
        (res, ⟨cacheKey, res, REDIS_CACHE_TTL_GENERAL⟩ :: cache)
      else (res, cache)

/-! ## Predicates and concrete inputs used to state the claims -/

/-- The candidate-cleaning step of `validateUrl` (line 117):
`stripQuotes(candidate.trim())`. -/
def cleanOf (candidate : Str) : Str := stripQuotes (jsTrim candidate)

/-- A URL that has passed the Validator: some candidate was approved by
`validateUrl` and the URL is that candidate verbatim (the VidMoly deep
pass pushes the raw candidate) or its cleaned form (the pattern loop
pushes `validation.url`). -/
def ApprovedUrl (d : Str) : Prop :=
  ∃ c, (validateUrl c).isValid = true ∧ (d = c ∨ (validateUrl c).url = some d)

/-- Claim-C5 condition: the (cleaned) candidate's scheme is not http or
https — including no scheme at all, where the URL constructor throws. -/
def condSchemeBad (r : Option ParsedUrl) : Bool :=
  match r with
  | some u => !(u.scheme = "http".data || u.scheme = "https".data)
  | none => true

/-- Claim-C5 condition: the hostname is in the blocklist. -/
def condBlockedHost (r : Option ParsedUrl) : Bool :=
  match r with
  | some u => BLOCKED_HOSTS.contains (lowerStr u.hostname)
  | none => false

/-- Claim-C5 condition: an explicit port outside the allowed set. -/
def condBadPort (r : Option ParsedUrl) : Bool :=
  match r with
  | some u =>
    match u.port with
    | some p => !(ALLOWED_PORTS.contains p)
    | none => false
  | none => false

/-- Claim-C5 condition: hostname characters outside `[a-zA-Z0-9.-]`. -/
def condBadHostChars (r : Option ParsedUrl) : Bool :=
  match r with
  | some u => !(decide (u.hostname ≠ []) && u.hostname.all isHostRegexChar)
  | none => false

/-- Whole-word-occurrence detector matching the condition of
`replaceWW`: does `\b tok \b` match anywhere in the string? -/
def hwwAux (tok : Str) : Option Char → Str → Bool
  | _, [] => false
  | prev, c :: t =>
    (decide (tok ≠ []) && prevBoundaryOk prev && leadMatch tok (c :: t) &&
      afterBoundaryOk ((c :: t).drop tok.length)) ||
    hwwAux tok (some c) t

/-- `tok` occurs whole-word (with `\b` boundaries) in `s`. -/
def hasWholeWord (tok s : Str) : Bool := hwwAux tok none s

/-- Concrete target URL used by the closed instances below. -/
def tgtUrl : Str := "https://host.example/embed/abc".data

/-- Concrete fetched body of the end-to-end scenario (spec §8): a
JWPlayer `sources` array holding one HLS manifest URL. -/
def bodyHls : Str := "sources: [\x7bfile: \"https://cdn.example/v.m3u8\"\x7d]".data

/-- Concrete document with two distinct `.m3u8` URLs and one `.mp4`
URL. -/
def docThree : Str :=
  "see https://e.a/v.m3u8 and https://e.b/v.m3u8 plus https://e.c/v.mp4 end".data

/-- Concrete VidMoly-flagged document carrying sixteen distinct valid
`.mp4` URLs in `src=` assignments. -/
def docVidmoly : Str :=
  ("vidmoly " ++ String.join (List.map
    (fun c => "src='http://h" ++ String.singleton c ++ "/v.mp4' ")
    "0123456789abcdef".toList)).data

/-- Concrete document containing one packer block whose payload
exercises whole-word substitution. -/
def docPacker : Str :=
  "pre eval(function(p,a,c,k,e,d)\x7bwhile(c--)return p\x7d('0 a0b 0x 10',10,1,'foo'.split('|'))) post".data

/-! # Theorems settling the claims -/

/-- C1: the claim says the Page Fetcher re-validates the target's
scheme and enforces the SSRF blocklist *before* network access, so no
fetch ever reaches a blocked/loopback target.  The code has no such
check: `performResolution` passes the caller-controlled URL to `fetch`
unconditionally.  At the loopback target `http://127.0.0.1/admin` —
which the Validator itself classifies as a blocked hostname — the
fetch-target trace of the resolution is exactly that URL, so network
access occurs to a target that fails the checks. -/
theorem c1_fetch_reaches_blocked_target :
    (validateUrl "http://127.0.0.1/admin".data).isValid = false ∧
    (validateUrl "http://127.0.0.1/admin".data).error = some "Blocked hostname".data ∧
    performResolutionFetchTargets "http://127.0.0.1/admin".data =
      ["http://127.0.0.1/admin".data] ∧
    (performResolutionTrace [] "http://127.0.0.1/admin".data []
        (.success 200 "OK".data "page".data)).2 ≠ [] := by
  refine ⟨by decide, by decide, rfl, by decide⟩

/-- C2 counterexample: a resolution whose fetch succeeds (HTTP 200)
with a body from which zero sources survive returns `ok: true` with an
empty `urls` list and a `Fetched ... Found 0 ...` message — not the
claimed `{ok: false, urls: [], message: "no urls found"}`. -/
theorem c2_counterexample :
    (performResolution [] tgtUrl [] (.success 200 "OK".data [])).ok = true ∧
    (performResolution [] tgtUrl [] (.success 200 "OK".data [])).urls = [] ∧
    (performResolution [] tgtUrl [] (.success 200 "OK".data [])).message ≠
      "no urls found".data := by
  refine ⟨by decide, by decide, by decide⟩

/-- C2 (amended): when the fetch succeeds (2xx) but zero validated
sources survive extraction, the engine returns `ok: true`, `urls: []`
and the message `Fetched <n> bytes. Found 0 unique video URLs, sorted
by provider reliability.`; an unreachable upstream instead yields
`ok: false`, so the two outcomes remain distinguishable. -/
theorem c2_empty_extraction_result (table : List ProviderInfo)
    (url referer statusText body : Str) (status : Nat)
    (h2xx : 200 ≤ status ∧ status < 300)
    (hempty : extractVideoUrls body url = []) :
    performResolution table url referer (.success status statusText body) =
      ⟨true, [],
        "Fetched ".data ++ natToStr body.length ++
          " bytes. Found 0 unique video URLs, sorted by provider reliability.".data⟩ ∧
    (∀ m, (performResolution table url referer (.networkError m)).ok = false) := by
  constructor
  · simp only [performResolution]
    rw [if_neg (not_not_intro h2xx)]
    simp [hempty, dedupSources, sortByReliability, natToStr]
    rfl
  · intro m
    rfl

/-- C2 witness: the amended theorem at a concrete 200-with-empty-body
resolution. -/
theorem c2_empty_extraction_result_witness :
    (200 ≤ 200 ∧ 200 < 300) ∧ extractVideoUrls [] tgtUrl = [] ∧
    (performResolution [] tgtUrl [] (.success 200 "OK".data []) =
      ⟨true, [],
        "Fetched ".data ++ natToStr (0 : Nat) ++
          " bytes. Found 0 unique video URLs, sorted by provider reliability.".data⟩ ∧
    (∀ m, (performResolution [] tgtUrl [] (.networkError m)).ok = false)) := by
  refine ⟨by decide, by decide, ?_⟩
  have h := c2_empty_extraction_result [] tgtUrl [] "OK".data [] 200
    (by decide) (by decide)
  simpa using h

/-- If no whole-word occurrence of `tok` exists (per the `\b`-boundary
detector), the whole-word replacement leaves the string unchanged: an
occurrence embedded in a longer word is never substituted. -/
theorem replaceWW_id (tok rep : Str) :
    ∀ (fuel : Nat) (prev : Option Char) (s : Str),
      hwwAux tok prev s = false → replaceWW tok rep fuel prev s = s
  | 0, _, _, _ => rfl
  | _ + 1, _, [], _ => rfl
  | fuel + 1, prev, c :: t, h => by
    simp only [hwwAux, Bool.or_eq_false_iff] at h
    obtain ⟨h1, h2⟩ := h
    simp only [replaceWW]
    rw [if_neg (by simp_all), replaceWW_id tok rep fuel (some c) t h2]

/-- Each step of the packer fold appends to its accumulator. -/
theorem packerFold_ext (blocks : List (Str × Nat × Nat × List Str)) :
    ∀ acc : Str, ∃ t,
      blocks.foldl
        (fun acc b =>
          match decodeBlock b.1 b.2.1 b.2.2.1 b.2.2.2 with
          | some d => acc ++ '\n' :: d
          | none => acc) acc = acc ++ t := by
  induction blocks with
  | nil => exact fun acc => ⟨[], by simp⟩
  | cons b bs ih =>
    intro acc
    simp only [List.foldl_cons]
    cases hd : decodeBlock b.1 b.2.1 b.2.2.1 b.2.2.2 with
    | none =>
      obtain ⟨t, ht⟩ := ih acc
      exact ⟨t, by simp [hd, ht]⟩
    | some d =>
      obtain ⟨t, ht⟩ := ih (acc ++ '\n' :: d)
      exact ⟨'\n' :: d ++ t, by simp [hd, ht]⟩

/-- C6: the deobfuscator's whole-word substitution and append-only
behaviour.  (1) The decoded output always extends the original
document — the original text is preserved as a prefix.  (2) Whole-word
replacement never rewrites occurrences embedded in longer words.
(3) Concrete block: payload `'0 a0b 0x 10'`, radix 10, count 1,
dictionary `['foo']`: only the standalone `0` tokens are substituted,
`a0b`, `0x` and `10` are untouched.  (4) An index with an empty
dictionary entry is skipped.  (5) End to end, a document holding one
packer block gains exactly the decoded payload, appended after `'\n'`. -/
theorem c6_packer_decoding :
    (∀ html, ∃ t, decodeJavaScriptPacker html = html ++ t) ∧
    (∀ s tok rep, hasWholeWord tok s = false → replaceWholeWord s tok rep = s) ∧
    decodePacked "0 a0b 0x 10".data 10 1 ["foo".data] = "foo a0b 0x 10".data ∧
    decodePacked "1 0".data 10 2 [[], "one".data] = "one 0".data ∧
    decodeJavaScriptPacker docPacker = docPacker ++ '\n' :: "foo a0b 0x 10".data := by
  refine ⟨?_, ?_, by decide, by decide, by decide⟩
  · intro html
    exact packerFold_ext (packerBlocks html.length html) html
  · intro s tok rep h
    exact replaceWW_id tok rep s.length none s h

/-- C6 witness: the no-whole-word-occurrence component at a concrete
input (`0` occurs in `ab 10x` only inside the word `10x`). -/
theorem c6_packer_decoding_witness :
    hasWholeWord "0".data "ab 10x".data = false ∧
    replaceWholeWord "ab 10x".data "0".data "foo".data = "ab 10x".data :=
  ⟨by decide, c6_packer_decoding.2.1 "ab 10x".data "0".data "foo".data (by decide)⟩

/-- Every Unicode scalar value is below `0x110000` and outside the
surrogate range. -/
theorem char_toNat_ranges (c : Char) :
    c.toNat < 0xd800 ∨ (0xe000 ≤ c.toNat ∧ c.toNat < 0x110000) := by
  have h := c.valid
  simp [UInt32.isValidChar, Nat.isValidChar, Char.toNat] at h
  exact h

/-- `utf8DecodeAux` ignores fuel beyond the input length. -/
theorem utf8DecodeAux_fuel :
    ∀ (f1 f2 : Nat) (bs : List Nat), bs.length ≤ f1 → bs.length ≤ f2 →
      utf8DecodeAux f1 bs = utf8DecodeAux f2 bs
  | 0, f2, bs, h1, _ => by
    have : bs = [] := List.eq_nil_of_length_eq_zero (by omega)
    subst this
    cases f2 <;> rfl
  | f1 + 1, f2, [], _, _ => by cases f2 <;> rfl
  | f1 + 1, f2 + 1, b1 :: rest, h1, h2 => by
    simp only [utf8DecodeAux]
    have hd : (rest.drop (utf8Step b1 rest).2).length ≤ rest.length := by
      simp [List.length_drop]
    simp only [List.length_cons] at h1 h2
    rw [utf8DecodeAux_fuel f1 f2 (rest.drop (utf8Step b1 rest).2)
      (by omega) (by omega)]
  | f1 + 1, 0, b1 :: rest, _, h2 => by simp at h2

/-- UTF-8 decoding of an encoded scalar prepended to arbitrary bytes
recovers the character. -/
theorem utf8Decode_encodeChar (c : Char) (bs : List Nat) :
    utf8Decode (utf8EncodeChar c.toNat ++ bs) = c :: utf8Decode bs := by
  have hval := char_toNat_ranges c
  have hofn := Char.ofNat_toNat c
  set n := c.toNat with hn
  by_cases h1 : n < 0x80
  · have e : utf8EncodeChar n = [n] := by
      simp only [utf8EncodeChar]; rw [if_pos h1]
    have hstep : utf8Step n bs = (c, 0) := by
      simp only [utf8Step]; rw [if_pos h1, hofn]
    rw [e]
    show utf8DecodeAux (n :: bs).length (n :: bs) = c :: utf8Decode bs
    rw [List.length_cons, utf8DecodeAux]
    simp only [hstep, List.drop_zero]
    rfl
  · by_cases h2 : n < 0x800
    · have e : utf8EncodeChar n = [0xc0 + n / 64, 0x80 + n % 64] := by
        simp only [utf8EncodeChar]
        rw [if_neg (by omega), if_pos (by omega)]
      have hv : (0xc0 + n / 64 - 0xc0) * 64 + (0x80 + n % 64 - 0x80) = n := by
        omega
      have hstep : utf8Step (0xc0 + n / 64) ((0x80 + n % 64) :: bs) = (c, 1) := by
        simp only [utf8Step]
        rw [if_neg (by omega), if_pos (by constructor <;> omega)]
        rw [if_pos (by simp only [isContByte]; simp; omega)]
        rw [hv, hofn]
      rw [e]
      show utf8DecodeAux ((0xc0 + n / 64) :: (0x80 + n % 64) :: bs).length
        ((0xc0 + n / 64) :: (0x80 + n % 64) :: bs) = c :: utf8Decode bs
      simp only [List.length_cons, utf8DecodeAux, hstep, List.drop_succ_cons,
        List.drop_zero]
      exact congrArg (c :: ·) (utf8DecodeAux_fuel _ _ bs (by omega) (by omega))
    · by_cases h3 : n < 0x10000
      · have e : utf8EncodeChar n =
            [0xe0 + n / 4096, 0x80 + (n / 64) % 64, 0x80 + n % 64] := by
          simp only [utf8EncodeChar]
          rw [if_neg (by omega), if_neg (by omega), if_pos (by omega)]
        have hv : (0xe0 + n / 4096 - 0xe0) * 4096 +
            (0x80 + (n / 64) % 64 - 0x80) * 64 + (0x80 + n % 64 - 0x80) = n := by
          omega
        have hstep : utf8Step (0xe0 + n / 4096)
            ((0x80 + (n / 64) % 64) :: (0x80 + n % 64) :: bs) = (c, 2) := by
          simp only [utf8Step]
          rw [if_neg (by omega), if_neg (by omega), if_pos (by constructor <;> omega)]
          rw [if_pos ?side]
          case side =>
            refine ⟨by simp only [isContByte]; simp; omega,
              by simp only [isContByte]; simp; omega, by omega, by omega⟩
          rw [hv, hofn]
        rw [e]
        show utf8DecodeAux ((0xe0 + n / 4096) :: (0x80 + (n / 64) % 64) ::
          (0x80 + n % 64) :: bs).length ((0xe0 + n / 4096) ::
          (0x80 + (n / 64) % 64) :: (0x80 + n % 64) :: bs) = c :: utf8Decode bs
        simp only [List.length_cons, utf8DecodeAux, hstep, List.drop_succ_cons,
          List.drop_zero]
        exact congrArg (c :: ·) (utf8DecodeAux_fuel _ _ bs (by omega) (by omega))
      · have h4 : n < 0x110000 := by omega
        have e : utf8EncodeChar n =
            [0xf0 + n / 262144, 0x80 + (n / 4096) % 64,
             0x80 + (n / 64) % 64, 0x80 + n % 64] := by
          simp only [utf8EncodeChar]
          rw [if_neg (by omega), if_neg (by omega), if_neg (by omega)]
        have hv : (0xf0 + n / 262144 - 0xf0) * 262144 +
            (0x80 + (n / 4096) % 64 - 0x80) * 4096 +
            (0x80 + (n / 64) % 64 - 0x80) * 64 + (0x80 + n % 64 - 0x80) = n := by
          omega
        have hstep : utf8Step (0xf0 + n / 262144)
            ((0x80 + (n / 4096) % 64) :: (0x80 + (n / 64) % 64) ::
              (0x80 + n % 64) :: bs) = (c, 3) := by
          simp only [utf8Step]
          rw [if_neg (by omega), if_neg (by omega), if_neg (by omega),
            if_pos (by constructor <;> omega)]
          rw [if_pos ?side]
          case side =>
            refine ⟨by simp only [isContByte]; simp; omega,
              by simp only [isContByte]; simp; omega,
              by simp only [isContByte]; simp; omega, by omega, by omega⟩
          rw [hv, hofn]
        rw [e]
        show utf8DecodeAux ((0xf0 + n / 262144) :: (0x80 + (n / 4096) % 64) ::
          (0x80 + (n / 64) % 64) :: (0x80 + n % 64) :: bs).length
          ((0xf0 + n / 262144) :: (0x80 + (n / 4096) % 64) ::
            (0x80 + (n / 64) % 64) :: (0x80 + n % 64) :: bs) = c :: utf8Decode bs
        simp only [List.length_cons, utf8DecodeAux, hstep, List.drop_succ_cons,
          List.drop_zero]
        exact congrArg (c :: ·) (utf8DecodeAux_fuel _ _ bs (by omega) (by omega))

/-- UTF-8 decode is a left inverse of UTF-8 encode. -/
theorem utf8_roundtrip (s : Str) : utf8Decode (utf8Encode s) = s := by
  induction s with
  | nil => rfl
  | cons c t ih =>
    show utf8Decode (utf8EncodeChar c.toNat ++ utf8Encode t) = c :: t
    rw [utf8Decode_encodeChar, ih]

/-- UTF-8 encoding produces bytes. -/
theorem utf8Encode_lt (s : Str) : ∀ b ∈ utf8Encode s, b < 256 := by
  induction s with
  | nil => simp [utf8Encode]
  | cons c t ih =>
    intro b hb
    have : b ∈ utf8EncodeChar c.toNat ∨ b ∈ utf8Encode t := by
      simpa [utf8Encode, List.mem_append] using hb
    rcases this with h | h
    · have hlt : c.toNat < 0x110000 := by
        rcases char_toNat_ranges c with h' | h' <;> omega
      simp only [utf8EncodeChar] at h
      split at h <;> try (split at h) <;> try (split at h)
      all_goals simp_all
      all_goals omega
    · exact ih b h

/-- After the `-`/`_` replacement, every base64url alphabet character
decodes to its 6-bit value. -/
theorem b64Value_repl_urlChar : ∀ n < 64, b64Value (b64UrlRepl (b64UrlChar n)) = some n := by
  decide

/-- No base64url alphabet character maps to `=` under the replacement. -/
theorem b64UrlRepl_urlChar_ne : ∀ n < 64, b64UrlRepl (b64UrlChar n) ≠ '=' := by
  decide

/-- `takeWhile` runs through a block of characters satisfying the
predicate and stops at a suffix contributing nothing. -/
theorem takeWhile_append_of_all (p : Char → Bool) :
    ∀ (l r : Str), (∀ c ∈ l, p c = true) → r.takeWhile p = [] →
      (l ++ r).takeWhile p = l
  | [], r, _, hr => by simpa using hr
  | c :: l, r, hl, hr => by
    rw [List.cons_append, List.takeWhile_cons, if_pos (hl c (List.mem_cons_self c l)),
      takeWhile_append_of_all p l r (fun c' hc' => hl c' (List.mem_cons_of_mem c hc')) hr]

/-- The restored `=` padding contributes nothing to the pre-`=`
segment. -/
theorem takeWhile_pad_nil (k : Nat) :
    ((List.replicate 3 '=').drop k).takeWhile (fun c => c ≠ '=') = [] := by
  match k with
  | 0 => decide
  | 1 => decide
  | 2 => decide
  | n + 3 => rw [List.drop_eq_nil_of_le (by simp)]; rfl

/-- Lenient decoding of the padded form of the base64url encoding
recovers the original bytes. -/
theorem lenientB64Decode_enc : ∀ (bytes : List Nat), (∀ b ∈ bytes, b < 256) →
    lenientB64Decode (b64UrlToPadded (encB64UrlBytes bytes)) = bytes
  | [], _ => by decide
  | [b1], h => by
    have hb1 : b1 < 256 := h b1 (by simp)
    have e1 := b64Value_repl_urlChar (b1 / 4) (by omega)
    have e2 := b64Value_repl_urlChar (b1 % 4 * 16) (by omega)
    have ne1 := b64UrlRepl_urlChar_ne (b1 / 4) (by omega)
    have ne2 := b64UrlRepl_urlChar_ne (b1 % 4 * 16) (by omega)
    have ep : b64UrlToPadded (encB64UrlBytes [b1]) =
        [b64UrlRepl (b64UrlChar (b1 / 4)), b64UrlRepl (b64UrlChar (b1 % 4 * 16)),
         '=', '='] := by simp [b64UrlToPadded, encB64UrlBytes]
    simp only [lenientB64Decode]
    rw [ep]
    rw [List.takeWhile_cons, if_pos (by simp [ne1]), List.takeWhile_cons,
      if_pos (by simp [ne2]), List.takeWhile_cons, if_neg (by simp)]
    simp only [List.filterMap_cons, e1, e2, List.filterMap_nil]
    simp only [lenientB64Vals, List.cons.injEq, and_true]
    omega
  | [b1, b2], h => by
    have hb1 : b1 < 256 := h b1 (by simp)
    have hb2 : b2 < 256 := h b2 (by simp)
    have e1 := b64Value_repl_urlChar (b1 / 4) (by omega)
    have e2 := b64Value_repl_urlChar (b1 % 4 * 16 + b2 / 16) (by omega)
    have e3 := b64Value_repl_urlChar (b2 % 16 * 4) (by omega)
    have ne1 := b64UrlRepl_urlChar_ne (b1 / 4) (by omega)
    have ne2 := b64UrlRepl_urlChar_ne (b1 % 4 * 16 + b2 / 16) (by omega)
    have ne3 := b64UrlRepl_urlChar_ne (b2 % 16 * 4) (by omega)
    have ep : b64UrlToPadded (encB64UrlBytes [b1, b2]) =
        [b64UrlRepl (b64UrlChar (b1 / 4)), b64UrlRepl (b64UrlChar (b1 % 4 * 16 + b2 / 16)),
         b64UrlRepl (b64UrlChar (b2 % 16 * 4)), '='] := by
      simp [b64UrlToPadded, encB64UrlBytes]
    simp only [lenientB64Decode]
    rw [ep]
    rw [List.takeWhile_cons, if_pos (by simp [ne1]), List.takeWhile_cons,
      if_pos (by simp [ne2]), List.takeWhile_cons, if_pos (by simp [ne3]),
      List.takeWhile_cons, if_neg (by simp)]
    simp only [List.filterMap_cons, e1, e2, e3, List.filterMap_nil]
    simp only [lenientB64Vals, List.cons.injEq, and_true]
    constructor
    · omega
    · omega
  | b1 :: b2 :: b3 :: rest, h => by
    have hb1 : b1 < 256 := h b1 (by simp)
    have hb2 : b2 < 256 := h b2 (by simp)
    have hb3 : b3 < 256 := h b3 (by simp)
    have ih := lenientB64Decode_enc rest (fun b hb => h b (by simp [hb]))
    have e1 := b64Value_repl_urlChar (b1 / 4) (by omega)
    have e2 := b64Value_repl_urlChar (b1 % 4 * 16 + b2 / 16) (by omega)
    have e3 := b64Value_repl_urlChar (b2 % 16 * 4 + b3 / 64) (by omega)
    have e4 := b64Value_repl_urlChar (b3 % 64) (by omega)
    have ne1 := b64UrlRepl_urlChar_ne (b1 / 4) (by omega)
    have ne2 := b64UrlRepl_urlChar_ne (b1 % 4 * 16 + b2 / 16) (by omega)
    have ne3 := b64UrlRepl_urlChar_ne (b2 % 16 * 4 + b3 / 64) (by omega)
    have ne4 := b64UrlRepl_urlChar_ne (b3 % 64) (by omega)
    have ep : b64UrlToPadded (encB64UrlBytes (b1 :: b2 :: b3 :: rest)) =
        b64UrlRepl (b64UrlChar (b1 / 4)) ::
        b64UrlRepl (b64UrlChar (b1 % 4 * 16 + b2 / 16)) ::
        b64UrlRepl (b64UrlChar (b2 % 16 * 4 + b3 / 64)) ::
        b64UrlRepl (b64UrlChar (b3 % 64)) ::
        b64UrlToPadded (encB64UrlBytes rest) := by
      simp only [b64UrlToPadded, encB64UrlBytes, List.map_cons, List.length_cons,
        List.cons_append]
      have hk : ((encB64UrlBytes rest).map b64UrlRepl).length + 1 + 1 + 1 + 1 + 3 =
          ((encB64UrlBytes rest).map b64UrlRepl).length + 3 + 4 := by omega
      rw [hk, Nat.add_mod_right]
    simp only [lenientB64Decode] at ih ⊢
    rw [ep]
    rw [List.takeWhile_cons, if_pos (by simp [ne1]), List.takeWhile_cons,
      if_pos (by simp [ne2]), List.takeWhile_cons, if_pos (by simp [ne3]),
      List.takeWhile_cons, if_pos (by simp [ne4])]
    simp only [List.filterMap_cons, e1, e2, e3, e4]
    simp only [lenientB64Vals]
    rw [ih]
    simp only [List.cons.injEq]
    refine ⟨by omega, by omega, by omega, trivial⟩

/-- C9 counterexample: the claim says a decode failure returns the
input itself as a literal string.  `Buffer.from(·, 'base64')` is
lenient and never throws, so the `catch` fallback is unreachable: at
the malformed input `!` the codec returns the empty string — the
lenient decode of no surviving base64 group — not the input. -/
theorem c9_counterexample :
    decodeBase64Url "!".data = [] ∧
    "!".data ≠ ([] : Str) ∧
    decodeBase64Url "!".data ≠ "!".data := by
  refine ⟨by decide, by decide, by decide⟩

/-- C9 (amended): the URL Codec's decode is a left inverse of base64url
encoding of a UTF-8 string; a malformed candidate never fails the
request, because Node's base64 decoder is lenient and never throws —
the codec returns the UTF-8 decoding of whatever valid base64 groups
remain (possibly the empty string, as for `!`), and the source's
`catch`-and-return-input branch is unreachable. -/
theorem c9_codec_roundtrip :
    (∀ s : Str, decodeBase64Url (encodeBase64UrlSpec s) = s) ∧
    decodeBase64Url "!".data = [] := by
  constructor
  · intro s
    have hdec := lenientB64Decode_enc (utf8Encode s) (utf8Encode_lt s)
    simp only [decodeBase64Url, encodeBase64UrlSpec, hdec]
    exact utf8_roundtrip s
  · decide

/-- A candidate accepted by `validateUrl` is non-empty, within the
length bound, and passes every policy check of the claim. -/
theorem validateUrl_isValid_imp (candidate : Str)
    (hv : (validateUrl candidate).isValid = true) :
    cleanOf candidate ≠ [] ∧ (cleanOf candidate).length ≤ 2048 ∧
    condSchemeBad (parseURL (cleanOf candidate)) = false ∧
    condBlockedHost (parseURL (cleanOf candidate)) = false ∧
    condBadPort (parseURL (cleanOf candidate)) = false ∧
    condBadHostChars (parseURL (cleanOf candidate)) = false := by
  unfold validateUrl at hv
  have hcl : stripQuotes (jsTrim candidate) = cleanOf candidate := rfl
  rw [hcl] at hv
  by_cases h0 : (cleanOf candidate = [] || decide ((cleanOf candidate).length > 2048)) = true
  · rw [if_pos h0] at hv; simp at hv
  · rw [if_neg h0] at hv
    simp only [Bool.or_eq_true, decide_eq_true_eq, not_or] at h0
    obtain ⟨hne, hlen⟩ := h0
    cases hp : parseURL (cleanOf candidate) with
    | none => rw [hp] at hv; simp at hv
    | some u =>
      rw [hp] at hv
      dsimp only at hv
      refine ⟨by simpa using hne, by omega, ?_, ?_, ?_, ?_⟩ <;>
        · simp only [condSchemeBad, condBlockedHost, condBadPort, condBadHostChars, hp]
          split_ifs at hv with h1 h2 h3 h4
          all_goals simp_all
          all_goals tauto

/-- C5: the Validator rejects every candidate whose (quote-stripped,
trimmed) form has a scheme other than http/https (including no scheme
at all, where the URL constructor throws), a blocklisted hostname, an
explicit port outside `{80, 443, 8080, 8443}`, hostname characters
outside `[a-zA-Z0-9.-]`, or is empty or longer than 2048 characters. -/
theorem c5_validator_rejections (candidate : Str)
    (h : condSchemeBad (parseURL (cleanOf candidate)) = true ∨
         condBlockedHost (parseURL (cleanOf candidate)) = true ∨
         condBadPort (parseURL (cleanOf candidate)) = true ∨
         condBadHostChars (parseURL (cleanOf candidate)) = true ∨
         cleanOf candidate = [] ∨ 2048 < (cleanOf candidate).length) :
    (validateUrl candidate).isValid = false := by
  cases hb : (validateUrl candidate).isValid with
  | false => rfl
  | true =>
    exfalso
    obtain ⟨h1, h2, h3, h4, h5, h6⟩ := validateUrl_isValid_imp candidate hb
    rcases h with hc | hc | hc | hc | hc | hc <;> first | omega | simp_all

/-- C5 witness: the theorem applied at concrete candidates exercising
each rejection condition (ftp scheme, javascript scheme, no scheme,
the `localhost` and `127.0.0.1` blocklist entries, a disallowed port,
an underscore hostname, and the empty string). -/
theorem c5_validator_rejections_witness :
    condSchemeBad (parseURL (cleanOf "ftp://example.com/".data)) = true ∧
    (validateUrl "ftp://example.com/".data).isValid = false ∧
    (validateUrl "javascript:alert(1)".data).isValid = false ∧
    (validateUrl "relative/path".data).isValid = false ∧
    (validateUrl "http://localhost/a/b".data).isValid = false ∧
    (validateUrl "http://127.0.0.1/admin".data).isValid = false ∧
    (validateUrl "https://h.example:9999/x".data).isValid = false ∧
    (validateUrl "https://ex_ample/x".data).isValid = false ∧
    (validateUrl "".data).isValid = false :=
  ⟨by decide,
   c5_validator_rejections _ (Or.inl (by decide)),
   c5_validator_rejections _ (Or.inl (by decide)),
   c5_validator_rejections _ (Or.inl (by decide)),
   c5_validator_rejections _ (Or.inr (Or.inl (by decide))),
   c5_validator_rejections _ (Or.inr (Or.inl (by decide))),
   c5_validator_rejections _ (Or.inr (Or.inr (Or.inl (by decide)))),
   c5_validator_rejections _ (Or.inr (Or.inr (Or.inr (Or.inl (by decide))))),
   c5_validator_rejections _ (Or.inr (Or.inr (Or.inr (Or.inr (Or.inl (by decide))))))⟩

/-! ### Lemmas about the reliability sort -/

/-- Descending-by-reliability ordering between sources. -/
def RelGE (a b : ValidatedSource) : Prop := relOf b ≤ relOf a

/-- `insertByRel` permutes the insertion. -/
theorem insertByRel_perm (x : ValidatedSource) :
    ∀ l, List.Perm (insertByRel l x) (x :: l)
  | [] => List.Perm.refl _
  | y :: ys => by
    simp only [insertByRel]
    split
    · exact List.Perm.refl _
    · exact ((insertByRel_perm x ys).cons y).trans (List.Perm.swap x y ys)

/-- `insertByRel` preserves descending sortedness. -/
theorem insertByRel_sorted (x : ValidatedSource) :
    ∀ l, l.Pairwise RelGE → (insertByRel l x).Pairwise RelGE
  | [], _ => by simp [insertByRel, List.pairwise_singleton]
  | y :: ys, h => by
    rw [List.pairwise_cons] at h
    obtain ⟨hy, hys⟩ := h
    simp only [insertByRel]
    split
    · rename_i hlt
      refine List.pairwise_cons.mpr ⟨?_, List.pairwise_cons.mpr ⟨hy, hys⟩⟩
      intro z hz
      rcases List.mem_cons.mp hz with rfl | hz
      · exact le_of_lt hlt
      · exact le_trans (hy z hz) (le_of_lt hlt)
    · rename_i hge
      refine List.pairwise_cons.mpr ⟨?_, insertByRel_sorted x ys hys⟩
      intro z hz
      rcases List.mem_cons.mp ((insertByRel_perm x ys).mem_iff.mp hz) with rfl | hz
      · exact le_of_not_lt hge
      · exact hy z hz

/-- A list all of whose members are below reliability `n` has an empty
`n`-class. -/
theorem filter_rel_nil {l : List ValidatedSource} {n : Nat}
    (h : ∀ z ∈ l, relOf z < n) :
    l.filter (fun s => relOf s == n) = [] := by
  rw [List.filter_eq_nil_iff]
  intro a ha
  simp only [beq_iff_eq]
  exact Nat.ne_of_lt (h a ha)

/-- Stability of `insertByRel` on a sorted list: the members of each
reliability class keep their order, with the inserted element last. -/
theorem insertByRel_filter (x : ValidatedSource) (n : Nat) :
    ∀ l, l.Pairwise RelGE →
      (insertByRel l x).filter (fun s => relOf s == n) =
        l.filter (fun s => relOf s == n) ++
          (if relOf x == n then [x] else []) := by
  intro l
  induction l with
  | nil =>
    intro _
    simp [insertByRel, List.filter_cons]
  | cons y ys ih =>
    intro h
    rw [List.pairwise_cons] at h
    obtain ⟨hy, hys⟩ := h
    simp only [insertByRel]
    split
    · rename_i hlt
      cases hx : (relOf x == n : Bool)
      · rw [List.filter_cons_of_neg (by simp [hx]), if_neg (by simp [hx]),
          List.append_nil]
      · have hn : relOf x = n := by simpa using hx
        have h1 : (y :: ys).filter (fun s => relOf s == n) = [] := by
          refine filter_rel_nil ?_
          intro z hz
          rcases List.mem_cons.mp hz with rfl | hz
          · omega
          · have := hy z hz
            simp only [RelGE] at this
            omega
        rw [List.filter_cons_of_pos (by simp [hx]), h1]
        simp [hx]
    · rename_i hge
      simp only [List.filter_cons]
      cases hyc : (relOf y == n : Bool)
      · simpa [hyc] using ih hys
      · simpa [hyc] using congrArg (y :: ·) (ih hys)

/-- The reliability sort is a permutation. -/
theorem sortByReliability_perm (l : List ValidatedSource) :
    List.Perm (sortByReliability l) l := by
  suffices h : ∀ (l : List ValidatedSource) acc,
      List.Perm (l.foldl insertByRel acc) (acc ++ l) by
    simpa using h l []
  intro l
  induction l with
  | nil => intro acc; simp
  | cons x t ih =>
    intro acc
    have h1 : List.Perm (t.foldl insertByRel (insertByRel acc x))
        (insertByRel acc x ++ t) := ih _
    have h2 : List.Perm (insertByRel acc x ++ t) ((x :: acc) ++ t) :=
      (insertByRel_perm x acc).append_right t
    have h3 : List.Perm ((x :: acc) ++ t) (acc ++ x :: t) := List.perm_middle.symm
    exact (h1.trans h2).trans h3

/-- The reliability sort sorts descending. -/
theorem sortByReliability_sorted (l : List ValidatedSource) :
    (sortByReliability l).Pairwise RelGE := by
  suffices h : ∀ (l : List ValidatedSource) acc, acc.Pairwise RelGE →
      (l.foldl insertByRel acc).Pairwise RelGE from h l [] List.Pairwise.nil
  intro l
  induction l with
  | nil => intro acc h; exact h
  | cons x t ih => intro acc h; exact ih _ (insertByRel_sorted x acc h)

/-- Stability of the reliability sort: each reliability class keeps its
first-seen order. -/
theorem sortByReliability_filter (l : List ValidatedSource) (n : Nat) :
    (sortByReliability l).filter (fun s => relOf s == n) =
      l.filter (fun s => relOf s == n) := by
  suffices h : ∀ (l : List ValidatedSource) acc, acc.Pairwise RelGE →
      (l.foldl insertByRel acc).filter (fun s => relOf s == n) =
        acc.filter (fun s => relOf s == n) ++ l.filter (fun s => relOf s == n) by
    simpa using h l [] List.Pairwise.nil
  intro l
  induction l with
  | nil => intro acc _; simp
  | cons x t ih =>
    intro acc h
    have step : (insertByRel acc x).filter (fun s => relOf s == n) =
        acc.filter (fun s => relOf s == n) ++ (if relOf x == n then [x] else []) :=
      insertByRel_filter x n acc h
    have h1 : ((x :: t).foldl insertByRel acc).filter (fun s => relOf s == n) =
        (insertByRel acc x).filter (fun s => relOf s == n) ++
          t.filter (fun s => relOf s == n) := ih _ (insertByRel_sorted x acc h)
    rw [h1, step, List.append_assoc, List.filter_cons]
    cases hx : (relOf x == n : Bool) <;> simp [hx]

/-! ### Soundness of the extraction pipeline -/

/-- `concatMap` on `[]`. -/
theorem concatMap_nil (f : α → List β) : concatMap f [] = [] := rfl

/-- `concatMap` on a cons. -/
theorem concatMap_cons (f : α → List β) (a : α) (l : List α) :
    concatMap f (a :: l) = f a ++ concatMap f l := rfl

/-- Membership in `concatMap`. -/
theorem mem_concatMap {f : α → List β} {b : β} :
    ∀ {l : List α}, b ∈ concatMap f l ↔ ∃ a ∈ l, b ∈ f a
  | [] => by simp [concatMap_nil]
  | a :: l => by
    simp [concatMap_cons, List.mem_append, mem_concatMap (l := l)]

/-- Every candidate produced by the VidMoly deep pass carries a URL
that `validateUrl` approved verbatim. -/
theorem analyzeVidMoly_valid (html : Str) :
    ∀ c ∈ analyzeVidMolyJavaScript html, (validateUrl c.url).isValid = true := by
  intro c hc
  simp only [analyzeVidMolyJavaScript, List.mem_append] at hc
  rcases hc with (hc | hc) | hc
  · rw [mem_concatMap] at hc
    obtain ⟨run, _, hmem⟩ := hc
    split at hmem
    · rw [List.mem_filterMap] at hmem
      obtain ⟨u, _, hg⟩ := hmem
      split at hg
      · rename_i hval
        cases hg
        exact hval
      · cases hg
    · cases hmem
  · rw [mem_concatMap] at hc
    obtain ⟨kw, _, hmem⟩ := hc
    rw [List.mem_filterMap] at hmem
    obtain ⟨u, _, hg⟩ := hmem
    split at hg
    · rename_i hval
      cases hg
      exact (Bool.and_eq_true _ _ |>.mp hval).2
    · cases hg
  · rw [mem_concatMap] at hc
    obtain ⟨kw, _, hmem⟩ := hc
    rw [List.mem_filterMap] at hmem
    obtain ⟨u, _, hg⟩ := hmem
    split at hg
    · rename_i hval
      cases hg
      exact (Bool.and_eq_true _ _ |>.mp hval).2
    · cases hg

/-- The VidMoly fold preserves URL soundness of the state. -/
theorem vidmolyFold_sound (l : List ExtCandidate)
    (hvalid : ∀ c ∈ l, (validateUrl c.url).isValid = true) :
    ∀ (st : ExtState), (∀ s ∈ st.urls, ApprovedUrl s.url) →
      ∀ s ∈ (l.foldl
        (fun st c => if st.uniq.contains c.url then st else addCandidate st c) st).urls,
        ApprovedUrl s.url := by
  induction l with
  | nil => intro st hst; exact hst
  | cons c t ih =>
    intro st hst
    simp only [List.foldl_cons]
    refine ih (fun c' hc' => hvalid c' (List.mem_cons_of_mem c hc')) _ ?_
    split
    · exact hst
    · intro s hs
      rcases List.mem_append.mp hs with hs | hs
      · exact hst s hs
      · have hsc : s = c := by simpa using hs
        exact ⟨s.url, by rw [hsc]; exact hvalid c (List.mem_cons_self c t), Or.inl rfl⟩

/-- The VidMoly phase preserves URL soundness of the state. -/
theorem vidmolyPhase_sound (html : Str) (st : ExtState)
    (hst : ∀ s ∈ st.urls, ApprovedUrl s.url) :
    ∀ s ∈ (vidmolyPhase html st).urls, ApprovedUrl s.url := by
  simp only [vidmolyPhase]
  split
  · exact vidmolyFold_sound _ (analyzeVidMoly_valid html) st hst
  · exact hst

/-- The candidate step preserves URL soundness when fed an actual
`validateUrl` verdict. -/
theorem stepCandidate_sound (p : PatKind) (st : ExtState) (patCount : Nat)
    (c0 : Str) (hst : ∀ s ∈ st.urls, ApprovedUrl s.url) :
    ∀ s ∈ (stepCandidate p st patCount (validateUrl c0)).1.urls, ApprovedUrl s.url := by
  intro s hs
  simp only [stepCandidate] at hs
  split at hs
  · rename_i u hvi hvu
    split at hs
    · exact hst s hs
    · simp only [addCandidate] at hs
      rcases List.mem_append.mp hs with hs | hs
      · exact hst s hs
      · have : s = ⟨patternType p, u, parseQuality u⟩ := by simpa using hs
        subst this
        exact ⟨c0, hvi, Or.inr hvu⟩
  · exact hst s hs

/-- The inner pattern loop preserves URL soundness. -/
theorem patLoop_sound (p : PatKind) (origUrl : Str) :
    ∀ (fuel : Nat) (st : ExtState) (patCount : Nat) (rest : Str),
      (∀ s ∈ st.urls, ApprovedUrl s.url) →
      ∀ s ∈ (patLoop p origUrl fuel st patCount rest).urls, ApprovedUrl s.url
  | 0, _, _, _, hst => hst
  | fuel + 1, st, patCount, rest, hst => by
    simp only [patLoop]
    cases he : execPattern p rest with
    | none => simp only [he]; exact hst
    | some pr =>
      obtain ⟨cand, rest'⟩ := pr
      simp only [he]
      by_cases hpc : patCount ≥ MAX_PER_PATTERN
      · rw [if_pos hpc]; exact hst
      · rw [if_neg hpc]
        have hstep := stepCandidate_sound p st patCount
          (rewriteCandidate (patternType p) cand origUrl) hst
        split
        · exact hstep
        · exact patLoop_sound p origUrl fuel _ _ rest' hstep

/-- The outer pattern loop preserves URL soundness. -/
theorem patternsLoop_sound (origUrl html : Str) :
    ∀ (ps : List PatKind) (st : ExtState),
      (∀ s ∈ st.urls, ApprovedUrl s.url) →
      ∀ s ∈ (patternsLoop origUrl html ps st).urls, ApprovedUrl s.url
  | [], _, hst => hst
  | p :: ps, st, hst => by
    simp only [patternsLoop]
    split
    · exact hst
    · exact patternsLoop_sound origUrl html ps _
        (patLoop_sound p origUrl (html.length + 1) st 0 html hst)

/-- C3 support: every URL in the extraction output passed the
Validator. -/
theorem extractVideoUrls_sound (html0 originalUrl : Str) :
    ∀ c ∈ extractVideoUrls html0 originalUrl, ApprovedUrl c.url := by
  intro c hc
  simp only [extractVideoUrls] at hc
  split at hc
  · cases hc
  · exact patternsLoop_sound _ _ VIDEO_URL_PATTERNS _
      (vidmolyPhase_sound _ _ (by simp)) c hc

/-! ### Lemmas about the response assembler -/

/-- `mkSource` stores the extracted URL in `url`. -/
theorem mkSource_url (table : List ProviderInfo) (targetUrl : Str) (c : ExtCandidate) :
    (mkSource table targetUrl c).url = c.url := rfl

/-- `mkSource` stores the extracted URL in `directUrl`. -/
theorem mkSource_directUrl (table : List ProviderInfo) (targetUrl : Str) (c : ExtCandidate) :
    (mkSource table targetUrl c).directUrl = c.url := rfl

/-- `mkSource` derives `type` from the extracted URL. -/
theorem mkSource_type (table : List ProviderInfo) (targetUrl : Str) (c : ExtCandidate) :
    (mkSource table targetUrl c).type = videoTypeOf c.url := rfl

/-- `mkSource` always emits a non-empty `proxiedUrl`. -/
theorem mkSource_proxiedUrl_ne (table : List ProviderInfo) (targetUrl : Str)
    (c : ExtCandidate) : (mkSource table targetUrl c).proxiedUrl ≠ [] := by
  intro h
  exact absurd (List.append_eq_nil.mp
    (List.append_eq_nil.mp (List.append_eq_nil.mp
      (List.append_eq_nil.mp (List.append_eq_nil.mp
        (List.append_eq_nil.mp h).1).1).1).1).1).1 (by decide)

/-- The proxy rewrite keeps `directUrl`. -/
theorem proxyRewrite_directUrl (targetUrl referer : Str) (s : ValidatedSource) :
    (proxyRewrite targetUrl referer s).directUrl = s.directUrl := rfl

/-- The proxy rewrite keeps `type`. -/
theorem proxyRewrite_type (targetUrl referer : Str) (s : ValidatedSource) :
    (proxyRewrite targetUrl referer s).type = s.type := rfl

/-- The proxy rewrite keeps `proxiedUrl`. -/
theorem proxyRewrite_proxiedUrl (targetUrl referer : Str) (s : ValidatedSource) :
    (proxyRewrite targetUrl referer s).proxiedUrl = s.proxiedUrl := rfl

/-- The proxy rewrite keeps the provider, hence the reliability. -/
theorem relOf_proxyRewrite (targetUrl referer : Str) (s : ValidatedSource) :
    relOf (proxyRewrite targetUrl referer s) = relOf s := rfl

/-- Every member of the deduplicated source list is `mkSource` of an
extracted candidate. -/
theorem dedupSources_mem (table : List ProviderInfo) (targetUrl : Str) :
    ∀ (l : List ExtCandidate) (acc : List ValidatedSource) (s : ValidatedSource),
      s ∈ l.foldl
        (fun acc urlData =>
          if acc.any (fun s => s.url = urlData.url) then acc
          else acc ++ [mkSource table targetUrl urlData]) acc →
      s ∈ acc ∨ ∃ c ∈ l, s = mkSource table targetUrl c
  | [], _, _, h => Or.inl h
  | c :: t, acc, s, h => by
    simp only [List.foldl_cons] at h
    rcases dedupSources_mem table targetUrl t _ s h with hacc | ⟨c', hc', hs⟩
    · split at hacc
      · exact Or.inl hacc
      · rcases List.mem_append.mp hacc with h1 | h1
        · exact Or.inl h1
        · exact Or.inr ⟨c, List.mem_cons_self c t, by simpa using h1⟩
    · exact Or.inr ⟨c', List.mem_cons_of_mem c hc', hs⟩

/-- The deduplicated source list has pairwise distinct `url` keys. -/
theorem dedupSources_nodup (table : List ProviderInfo) (targetUrl : Str) :
    ∀ (l : List ExtCandidate) (acc : List ValidatedSource),
      acc.Pairwise (fun a b => a.url ≠ b.url) →
      (l.foldl
        (fun acc urlData =>
          if acc.any (fun s => s.url = urlData.url) then acc
          else acc ++ [mkSource table targetUrl urlData]) acc).Pairwise
        (fun a b => a.url ≠ b.url)
  | [], _, h => h
  | c :: t, acc, h => by
    simp only [List.foldl_cons]
    refine dedupSources_nodup table targetUrl t _ ?_
    split
    · exact h
    · rename_i hany
      rw [List.pairwise_append]
      refine ⟨h, List.pairwise_singleton _ _, ?_⟩
      intro a ha b hb
      have hb' : b = mkSource table targetUrl c := by simpa using hb
      subst hb'
      rw [mkSource_url]
      simp only [List.any_eq_true, decide_eq_true_eq, not_exists, not_and] at hany
      exact hany a ha

/-- The response list of a 2xx resolution, in assembled form. -/
theorem performResolution_urls (table : List ProviderInfo)
    (url referer statusText body : Str) (status : Nat)
    (h2xx : 200 ≤ status ∧ status < 300) :
    (performResolution table url referer (.success status statusText body)).urls =
      (sortByReliability
        (dedupSources table url (extractVideoUrls body url))).map
        (proxyRewrite url referer) := by
  simp only [performResolution]
  rw [if_neg (not_not_intro h2xx)]

/-- C3 counterexample: in the end-to-end scenario (fetch succeeds, one
HLS source extracted), the returned source's `url` field is the
proxy-relay URL, not the extracted media URL, and it would not pass the
Validator (it is relative); the extracted URL lives in `directUrl`. -/
theorem c3_counterexample :
    (performResolution [] tgtUrl [] (.success 200 "OK".data bodyHls)).ok = true ∧
    (performResolution [] tgtUrl [] (.success 200 "OK".data bodyHls)).urls.length = 1 ∧
    (∀ s ∈ (performResolution [] tgtUrl [] (.success 200 "OK".data bodyHls)).urls,
      s.url ≠ "https://cdn.example/v.m3u8".data ∧
      (validateUrl s.url).isValid = false ∧
      s.directUrl = "https://cdn.example/v.m3u8".data) := by
  refine ⟨by decide, by decide, by decide⟩

/-- C3 (amended): in every successful (2xx) resolution, each returned
source's `directUrl` is a candidate approved by the Validator (verbatim
or in quote/space-stripped form), `directUrl` — the deduplication key —
is unique within the response, and `proxiedUrl` is non-empty; the `url`
field carries the proxy-relay form of `directUrl`. -/
theorem c3_source_invariants (table : List ProviderInfo)
    (url referer statusText body : Str) (status : Nat)
    (h2xx : 200 ≤ status ∧ status < 300) :
    (∀ s ∈ (performResolution table url referer (.success status statusText body)).urls,
        ApprovedUrl s.directUrl ∧ s.proxiedUrl ≠ []) ∧
    (performResolution table url referer
        (.success status statusText body)).urls.Pairwise
      (fun a b => a.directUrl ≠ b.directUrl) := by
  rw [performResolution_urls table url referer statusText body status h2xx]
  have hmem : ∀ s' ∈ sortByReliability (dedupSources table url (extractVideoUrls body url)),
      ∃ c ∈ extractVideoUrls body url, s' = mkSource table url c := by
    intro s' hs'
    have hd := (sortByReliability_perm _).mem_iff.mp hs'
    rcases dedupSources_mem table url _ [] s' hd with h | h
    · cases h
    · exact h
  constructor
  · intro s hs
    obtain ⟨s', hs', rfl⟩ := List.mem_map.mp hs
    obtain ⟨c, hc, rfl⟩ := hmem s' hs'
    refine ⟨?_, ?_⟩
    · rw [proxyRewrite_directUrl, mkSource_directUrl]
      exact extractVideoUrls_sound body url c hc
    · rw [proxyRewrite_proxiedUrl]
      exact mkSource_proxiedUrl_ne table url c
  · rw [List.pairwise_map]
    have hnodup : (sortByReliability
        (dedupSources table url (extractVideoUrls body url))).Pairwise
        (fun a b => a.url ≠ b.url) := by
      refine ((sortByReliability_perm _).pairwise_iff ?_).mpr
        (dedupSources_nodup table url _ [] List.Pairwise.nil)
      intro a b hab
      exact fun h => hab h.symm
    have hud : ∀ s' ∈ sortByReliability
        (dedupSources table url (extractVideoUrls body url)), s'.url = s'.directUrl := by
      intro s' hs'
      obtain ⟨c, _, rfl⟩ := hmem s' hs'
      rfl
    refine List.Pairwise.imp_of_mem ?_ hnodup
    intro a b ha hb hab
    simp only [proxyRewrite_directUrl]
    rw [← hud a ha, ← hud b hb]
    exact hab

/-- C3 witness: the amended theorem at the end-to-end scenario. -/
theorem c3_source_invariants_witness :
    (200 ≤ 200 ∧ 200 < 300) ∧
    ((∀ s ∈ (performResolution [] tgtUrl [] (.success 200 "OK".data bodyHls)).urls,
        ApprovedUrl s.directUrl ∧ s.proxiedUrl ≠ []) ∧
      (performResolution [] tgtUrl []
          (.success 200 "OK".data bodyHls)).urls.Pairwise
        (fun a b => a.directUrl ≠ b.directUrl)) :=
  ⟨by decide, c3_source_invariants [] tgtUrl [] "OK".data bodyHls 200 (by decide)⟩

/-- C10: in every successful resolution, each returned source's `type`
is the substring-containment cascade applied to the extracted URL
(`directUrl`): `.m3u8` → `hls`, else `.mp4` → `mp4`, else `.webm` →
`webm`, else `unknown`. -/
theorem c10_type_cascade (table : List ProviderInfo)
    (url referer statusText body : Str) (status : Nat)
    (h2xx : 200 ≤ status ∧ status < 300) :
    ∀ s ∈ (performResolution table url referer (.success status statusText body)).urls,
      s.type = videoTypeOf s.directUrl := by
  rw [performResolution_urls table url referer statusText body status h2xx]
  intro s hs
  obtain ⟨s', hs', rfl⟩ := List.mem_map.mp hs
  have hd := (sortByReliability_perm _).mem_iff.mp hs'
  rcases dedupSources_mem table url _ [] s' hd with h | ⟨c, _, rfl⟩
  · cases h
  · rw [proxyRewrite_type, proxyRewrite_directUrl, mkSource_type, mkSource_directUrl]

/-- C10 witness: the theorem at the end-to-end scenario, where the
single source's type is `hls`. -/
theorem c10_type_cascade_witness :
    (200 ≤ 200 ∧ 200 < 300) ∧
    (∀ s ∈ (performResolution [] tgtUrl [] (.success 200 "OK".data bodyHls)).urls,
      s.type = videoTypeOf s.directUrl) :=
  ⟨by decide, c10_type_cascade [] tgtUrl [] "OK".data bodyHls 200 (by decide)⟩

/-- C8: in every successful resolution the returned `urls` array is
sorted descending by provider reliability (every earlier source has
reliability at least that of every later one), and each reliability
class keeps its first-seen order: filtering the response at any
reliability value yields exactly the proxy-rewritten deduplicated
sources of that reliability, in insertion (document) order. -/
theorem c8_reliability_sort (table : List ProviderInfo)
    (url referer statusText body : Str) (status : Nat)
    (h2xx : 200 ≤ status ∧ status < 300) :
    (performResolution table url referer
        (.success status statusText body)).urls.Pairwise RelGE ∧
    (∀ n, (performResolution table url referer
        (.success status statusText body)).urls.filter (fun s => relOf s == n) =
      ((dedupSources table url (extractVideoUrls body url)).filter
        (fun s => relOf s == n)).map (proxyRewrite url referer)) := by
  rw [performResolution_urls table url referer statusText body status h2xx]
  constructor
  · rw [List.pairwise_map]
    refine List.Pairwise.imp ?_ (sortByReliability_sorted _)
    intro a b hab
    simpa only [RelGE, relOf_proxyRewrite] using hab
  · intro n
    rw [List.filter_map]
    have hcomp : ((fun s => relOf s == n) ∘ proxyRewrite url referer) =
        (fun s => relOf s == n) := by
      funext s
      simp [Function.comp, relOf_proxyRewrite]
    rw [hcomp, sortByReliability_filter]

/-- C8 witness: the theorem at the end-to-end scenario. -/
theorem c8_reliability_sort_witness :
    (200 ≤ 200 ∧ 200 < 300) ∧
    ((performResolution [] tgtUrl []
        (.success 200 "OK".data bodyHls)).urls.Pairwise RelGE ∧
      (∀ n, (performResolution [] tgtUrl []
          (.success 200 "OK".data bodyHls)).urls.filter (fun s => relOf s == n) =
        ((dedupSources [] tgtUrl (extractVideoUrls bodyHls tgtUrl)).filter
          (fun s => relOf s == n)).map (proxyRewrite tgtUrl []))) :=
  ⟨by decide, c8_reliability_sort [] tgtUrl [] "OK".data bodyHls 200 (by decide)⟩

/-! ### The extraction caps -/

/-- One candidate step grows the counter by at most one. -/
theorem stepCandidate_total (p : PatKind) (st : ExtState) (patCount : Nat)
    (v : ValidationResult) :
    (stepCandidate p st patCount v).1.total ≤ st.total + 1 := by
  simp only [stepCandidate]
  split
  · split
    · simp
    · simp [addCandidate]
  · simp

/-- The counter of the state equals the accumulator length, preserved
by a candidate step. -/
theorem stepCandidate_len (p : PatKind) (st : ExtState) (patCount : Nat)
    (v : ValidationResult) (h : st.total = st.urls.length) :
    (stepCandidate p st patCount v).1.total =
      (stepCandidate p st patCount v).1.urls.length := by
  simp only [stepCandidate]
  split
  · split
    · exact h
    · simp [addCandidate, h]
  · exact h

/-- The inner pattern loop never pushes the counter past the global
cap when entered below it. -/
theorem patLoop_total (p : PatKind) (origUrl : Str) :
    ∀ (fuel : Nat) (st : ExtState) (patCount : Nat) (rest : Str),
      st.total < MAX_TOTAL_URLS →
      (patLoop p origUrl fuel st patCount rest).total ≤ MAX_TOTAL_URLS
  | 0, _, _, _, h => le_of_lt h
  | fuel + 1, st, patCount, rest, h => by
    simp only [patLoop]
    cases he : execPattern p rest with
    | none => simp only [he]; exact le_of_lt h
    | some pr =>
      obtain ⟨cand, rest'⟩ := pr
      simp only [he]
      by_cases hpc : patCount ≥ MAX_PER_PATTERN
      · rw [if_pos hpc]; exact le_of_lt h
      · rw [if_neg hpc]
        have hst2 := stepCandidate_total p st patCount
          (validateUrl (rewriteCandidate (patternType p) cand origUrl))
        split
        · omega
        · rename_i hlt
          exact patLoop_total p origUrl fuel _ _ rest' (by omega)

/-- The inner pattern loop preserves the counter/length invariant. -/
theorem patLoop_len (p : PatKind) (origUrl : Str) :
    ∀ (fuel : Nat) (st : ExtState) (patCount : Nat) (rest : Str),
      st.total = st.urls.length →
      (patLoop p origUrl fuel st patCount rest).total =
        (patLoop p origUrl fuel st patCount rest).urls.length
  | 0, _, _, _, h => h
  | fuel + 1, st, patCount, rest, h => by
    simp only [patLoop]
    cases he : execPattern p rest with
    | none => simp only [he]; exact h
    | some pr =>
      obtain ⟨cand, rest'⟩ := pr
      simp only [he]
      by_cases hpc : patCount ≥ MAX_PER_PATTERN
      · rw [if_pos hpc]; exact h
      · rw [if_neg hpc]
        have hlen := stepCandidate_len p st patCount
          (validateUrl (rewriteCandidate (patternType p) cand origUrl)) h
        split
        · exact hlen
        · exact patLoop_len p origUrl fuel _ _ rest' hlen

/-- The outer pattern loop respects the global cap. -/
theorem patternsLoop_total (origUrl html : Str) :
    ∀ (ps : List PatKind) (st : ExtState), st.total ≤ MAX_TOTAL_URLS →
      (patternsLoop origUrl html ps st).total ≤ MAX_TOTAL_URLS
  | [], _, h => h
  | p :: ps, st, h => by
    simp only [patternsLoop]
    split
    · exact h
    · rename_i hlt
      exact patternsLoop_total origUrl html ps _
        (patLoop_total p origUrl (html.length + 1) st 0 html (by omega))

/-- The outer pattern loop preserves the counter/length invariant. -/
theorem patternsLoop_len (origUrl html : Str) :
    ∀ (ps : List PatKind) (st : ExtState), st.total = st.urls.length →
      (patternsLoop origUrl html ps st).total =
        (patternsLoop origUrl html ps st).urls.length
  | [], _, h => h
  | p :: ps, st, h => by
    simp only [patternsLoop]
    split
    · exact h
    · exact patternsLoop_len origUrl html ps _
        (patLoop_len p origUrl (html.length + 1) st 0 html h)

/-- C7 (amended): the pattern-scanning loop stops at the global cap, so
whenever the VidMoly special pass does not fire (the working document
does not mention `vidmoly`), the extraction output never exceeds
`MAX_TOTAL_URLS`; and the document with two distinct `.m3u8` URLs and
one `.mp4` URL yields exactly those three distinct candidates. -/
theorem c7_extraction_caps (html0 url : Str)
    (hvm1 : containsSub (decodeJavaScriptPacker (truncateHtml html0)) "vidmoly".data = false)
    (hvm2 : containsSub (decodeJavaScriptPacker (truncateHtml html0)) "VidMoly".data = false) :
    (extractVideoUrls html0 url).length ≤ MAX_TOTAL_URLS ∧
    (extractVideoUrls docThree tgtUrl).map ExtCandidate.url =
      ["https://e.a/v.m3u8".data, "https://e.b/v.m3u8".data,
       "https://e.c/v.mp4".data] ∧
    (extractVideoUrls docThree tgtUrl).Pairwise (fun a b => a.url ≠ b.url) := by
  refine ⟨?_, by decide, by decide⟩
  simp only [extractVideoUrls]
  split
  · simp [MAX_TOTAL_URLS]
  · have hst1 : vidmolyPhase (decodeJavaScriptPacker (truncateHtml html0))
        ⟨[], [], 0⟩ = ⟨[], [], 0⟩ := by
      simp only [vidmolyPhase]
      rw [if_neg (by simp [hvm1, hvm2])]
    rw [hst1]
    have htot := patternsLoop_total url (decodeJavaScriptPacker (truncateHtml html0))
      VIDEO_URL_PATTERNS ⟨[], [], 0⟩ (by simp [MAX_TOTAL_URLS])
    have hlen := patternsLoop_len url (decodeJavaScriptPacker (truncateHtml html0))
      VIDEO_URL_PATTERNS ⟨[], [], 0⟩ (by simp)
    omega

/-- C7 counterexample: a VidMoly-flagged document with sixteen distinct
valid `.mp4` URLs makes the final returned array hold 16 sources —
more than `MAX_TOTAL_URLS` (10, `extractVideoUrls`) and more than the
dead generator's limit of 15: the VidMoly special pass bypasses the
caps. -/
theorem c7_counterexample :
    (performResolution [] tgtUrl [] (.success 200 "OK".data docVidmoly)).urls.length = 16 ∧
    MAX_TOTAL_URLS = 10 ∧ (16 : Nat) > 10 ∧ (16 : Nat) > 15 :=
  ⟨by decide, rfl, by decide, by decide⟩

/-- C7 witness: the amended theorem at a concrete VidMoly-free
document. -/
theorem c7_extraction_caps_witness :
    containsSub (decodeJavaScriptPacker (truncateHtml "plain page".data)) "vidmoly".data = false ∧
    containsSub (decodeJavaScriptPacker (truncateHtml "plain page".data)) "VidMoly".data = false ∧
    ((extractVideoUrls "plain page".data tgtUrl).length ≤ MAX_TOTAL_URLS ∧
      (extractVideoUrls docThree tgtUrl).map ExtCandidate.url =
        ["https://e.a/v.m3u8".data, "https://e.b/v.m3u8".data,
         "https://e.c/v.mp4".data] ∧
      (extractVideoUrls docThree tgtUrl).Pairwise (fun a b => a.url ≠ b.url)) :=
  ⟨by decide, by decide,
   c7_extraction_caps "plain page".data tgtUrl (by decide) (by decide)⟩

/-- C4: on a cache miss, the resolution result is written back (with
the fixed TTL) exactly when it is `ok` with a non-empty `urls` list;
and a resolution whose fetch returns HTTP 404 yields `ok: false` and
leaves the cache unchanged. -/
theorem c4_cache_write_policy (table : List ProviderInfo) (cache : List CacheEntry)
    (q : ResolveQuery) (outcome : FetchOutcome)
    (htgt : ¬(queryTarget q = []))
    (hmiss : cacheGet cache (buildCacheKey (queryTarget q) (queryReferer q)) = none) :
    ((handleResolve table cache q outcome).1 =
        performResolution table (queryTarget q) (queryReferer q) outcome) ∧
    (((performResolution table (queryTarget q) (queryReferer q) outcome).ok = true ∧
        (performResolution table (queryTarget q) (queryReferer q) outcome).urls ≠ []) →
      (handleResolve table cache q outcome).2 =
        ⟨buildCacheKey (queryTarget q) (queryReferer q),
         performResolution table (queryTarget q) (queryReferer q) outcome,
         REDIS_CACHE_TTL_GENERAL⟩ :: cache) ∧
    (¬((performResolution table (queryTarget q) (queryReferer q) outcome).ok = true ∧
        (performResolution table (queryTarget q) (queryReferer q) outcome).urls ≠ []) →
      (handleResolve table cache q outcome).2 = cache) ∧
    (∀ statusText body, outcome = .success 404 statusText body →
      (handleResolve table cache q outcome).1.ok = false ∧
      (handleResolve table cache q outcome).2 = cache) := by
  simp only [handleResolve]
  rw [if_neg htgt]
  simp only [hmiss]
  by_cases hok : (performResolution table (queryTarget q) (queryReferer q) outcome).ok = true ∧
      (performResolution table (queryTarget q) (queryReferer q) outcome).urls ≠ []
  · rw [if_pos hok]
    refine ⟨rfl, fun _ => rfl, fun hn => absurd hok hn, ?_⟩
    intro statusText body hout
    subst hout
    exfalso
    have hko : (performResolution table (queryTarget q) (queryReferer q)
        (.success 404 statusText body)).ok = false := by
      simp [performResolution]
    simp_all
  · rw [if_neg hok]
    refine ⟨rfl, fun h => absurd h hok, fun _ => rfl, ?_⟩
    intro statusText body hout
    subst hout
    exact ⟨by simp [performResolution], rfl⟩

/-- C4 witness: the theorem at a concrete 404 resolution on an empty
cache. -/
theorem c4_cache_write_policy_witness :
    ¬(queryTarget ⟨none, some tgtUrl, none⟩ = []) ∧
    cacheGet [] (buildCacheKey (queryTarget ⟨none, some tgtUrl, none⟩)
      (queryReferer ⟨none, some tgtUrl, none⟩)) = none ∧
    ((handleResolve [] [] ⟨none, some tgtUrl, none⟩
        (.success 404 "Not Found".data bodyHls)).1.ok = false ∧
      (handleResolve [] [] ⟨none, some tgtUrl, none⟩
        (.success 404 "Not Found".data bodyHls)).2 = []) :=
  ⟨by decide, by decide,
   (c4_cache_write_policy [] [] ⟨none, some tgtUrl, none⟩
      (.success 404 "Not Found".data bodyHls) (by decide) (by decide)).2.2.2
     "Not Found".data bodyHls rfl⟩

end GazesResolve
